import Mathlib

/-!
Verification of the SEO article generator backend.

Shallow embedding of the backend's pure logic:
* `CryptoService` — AES-256-GCM envelope format (`encrypt`/`decrypt`),
  data masking (`maskSensitiveData`).  JavaScript strings are modelled as
  `List Char`, Node `Buffer`s as `List Nat` of bytes.  The Node cipher
  primitive (`createCipheriv`/`createDecipheriv` with the configured key)
  is an abstract `GcmCipher` whose fields state exactly what the library
  guarantees; the base64 codec and the `split(':')` logic are modelled
  concretely.
-/

namespace CryptoService

/-- Alphabet used by Node's `Buffer.toString('base64')`. -/
def b64Alphabet : List Char :=
  "ABCDEFGHIJKLMNOPQRSTUVWXYZabcdefghijklmnopqrstuvwxyz0123456789+/".data

/-- Character for a 6-bit group. -/
def b64Char (n : Nat) : Char := b64Alphabet.getD n 'A'

/-- Numeric value of a base64 character. -/
def b64CharVal (c : Char) : Nat := b64Alphabet.indexOf c

/-- Encoding side of Node's base64 (`Buffer.toString('base64')`): groups of
three bytes become four characters, with `=` padding at the end. -/
def b64encode : List Nat → List Char
  | [] => []
  | [a] => [b64Char (a / 4), b64Char (a % 4 * 16), '=', '=']
  | [a, b] => [b64Char (a / 4), b64Char (a % 4 * 16 + b / 16), b64Char (b % 16 * 4), '=']
  | a :: b :: c :: rest =>
      b64Char (a / 4) :: b64Char (a % 4 * 16 + b / 16) ::
      b64Char (b % 16 * 4 + c / 64) :: b64Char (c % 64) :: b64encode rest

/-- Decoding side of Node's base64 (`Buffer.from(s, 'base64')`): four
characters become three bytes, with the two `=`-padded terminal forms. -/
def b64decode : List Char → List Nat
  | c1 :: c2 :: c3 :: c4 :: rest =>
      if c3 = '=' ∧ c4 = '=' ∧ rest = [] then
        [b64CharVal c1 * 4 + b64CharVal c2 / 16]
      else if c4 = '=' ∧ rest = [] then
        [b64CharVal c1 * 4 + b64CharVal c2 / 16,
         b64CharVal c2 % 16 * 16 + b64CharVal c3 / 4]
      else
        (b64CharVal c1 * 4 + b64CharVal c2 / 16) ::
        (b64CharVal c2 % 16 * 16 + b64CharVal c3 / 4) ::
        (b64CharVal c3 % 4 * 64 + b64CharVal c4) :: b64decode rest
  | _ => []

/-- JavaScript `string.split(':')` on a character list. -/
def splitColon : List Char → List (List Char)
  | [] => [[]]
  | c :: rest =>
      match splitColon rest with
      | [] => [[]]
      | h :: t => if c = ':' then [] :: h :: t else (c :: h) :: t

theorem splitColon_ne_nil (l : List Char) : splitColon l ≠ [] := by
  cases l with
  | nil => simp [splitColon]
  | cons c rest =>
      simp only [splitColon]
      rcases h : splitColon rest with _ | ⟨h', t⟩
      · simp
      · by_cases hc : c = ':' <;> simp [hc]

theorem splitColon_no_colon {l : List Char} (h : ':' ∉ l) : splitColon l = [l] := by
  induction l with
  | nil => rfl
  | cons c rest ih =>
      have hc : c ≠ ':' := fun hc => h (hc ▸ List.mem_cons_self c rest)
      have hr : ':' ∉ rest := fun hr => h (List.mem_cons_of_mem _ hr)
      simp only [splitColon, ih hr]
      simp [hc]

theorem splitColon_append {a b : List Char} (h : ':' ∉ a) :
    splitColon (a ++ ':' :: b) = a :: splitColon b := by
  induction a with
  | nil =>
      simp only [List.nil_append, splitColon]
      rcases hb : splitColon b with _ | ⟨h', t⟩
      · exact absurd hb (splitColon_ne_nil b)
      · simp
  | cons c rest ih =>
      have hc : c ≠ ':' := fun hc => h (hc ▸ List.mem_cons_self c rest)
      have hr : ':' ∉ rest := fun hr => h (List.mem_cons_of_mem _ hr)
      have hdef : splitColon (c :: (rest ++ ':' :: b)) =
          match splitColon (rest ++ ':' :: b) with
          | [] => [[]]
          | h :: t => if c = ':' then [] :: h :: t else (c :: h) :: t := rfl
      rw [List.cons_append, hdef, ih hr]
      simp [hc]

theorem b64Char_ne_colon (n : Nat) : b64Char n ≠ ':' := by
  unfold b64Char List.getD
  rcases h : b64Alphabet.get? n with _ | c
  · simp only [Option.getD_none]
    decide
  · simp only [Option.getD_some]
    have hm : c ∈ b64Alphabet := List.get?_mem h
    intro hc
    subst hc
    revert hm
    decide

theorem b64encode_no_colon (l : List Nat) : ':' ∉ b64encode l := by
  induction l using b64encode.induct with
  | case1 => simp [b64encode]
  | case2 a =>
      simp only [b64encode, List.mem_cons]
      rintro (h | h | h | h | h)
      · exact b64Char_ne_colon _ h.symm
      · exact b64Char_ne_colon _ h.symm
      · simp at h
      · simp at h
      · simp at h
  | case3 a b =>
      simp only [b64encode, List.mem_cons]
      rintro (h | h | h | h | h)
      · exact b64Char_ne_colon _ h.symm
      · exact b64Char_ne_colon _ h.symm
      · exact b64Char_ne_colon _ h.symm
      · simp at h
      · simp at h
  | case4 a b c rest ih =>
      simp only [b64encode, List.mem_cons]
      rintro (h | h | h | h | h)
      · exact b64Char_ne_colon _ h.symm
      · exact b64Char_ne_colon _ h.symm
      · exact b64Char_ne_colon _ h.symm
      · exact b64Char_ne_colon _ h.symm
      · exact ih h

theorem b64CharVal_b64Char : ∀ n < 64, b64CharVal (b64Char n) = n := by
  decide

theorem b64Char_ne_eq : ∀ n < 64, b64Char n ≠ '=' := by
  decide

theorem mul_add_div_lt {x b k : Nat} (hk : 0 < k) (hb : b < k) : (x * k + b) / k = x := by
  rw [Nat.mul_comm, Nat.mul_add_div hk, Nat.div_eq_of_lt hb, Nat.add_zero]

theorem mul_add_mod_lt {x b k : Nat} (hb : b < k) : (x * k + b) % k = b := by
  rw [Nat.mul_comm x k, Nat.mul_add_mod, Nat.mod_eq_of_lt hb]

theorem b64_byte1 {a b : Nat} (hb : b < 256) :
    (a / 4) * 4 + (a % 4 * 16 + b / 16) / 16 = a := by
  rw [mul_add_div_lt (by omega) (by omega)]
  omega

theorem b64_byte2 {a b c : Nat} (hb : b < 256) (hc : c < 256) :
    (a % 4 * 16 + b / 16) % 16 * 16 + (b % 16 * 4 + c / 64) / 4 = b := by
  rw [mul_add_mod_lt (by omega), mul_add_div_lt (by omega) (by omega)]
  omega

theorem b64_byte3 {b c : Nat} (hc : c < 256) :
    (b % 16 * 4 + c / 64) % 4 * 64 + c % 64 = c := by
  rw [mul_add_mod_lt (by omega)]
  omega

theorem b64decode_b64encode {l : List Nat} (h : ∀ b ∈ l, b < 256) :
    b64decode (b64encode l) = l := by
  induction l using b64encode.induct with
  | case1 => rfl
  | case2 a =>
      have ha : a < 256 := h a (by simp)
      rw [b64encode, b64decode]
      rw [if_pos ⟨rfl, rfl, rfl⟩]
      rw [b64CharVal_b64Char _ (by omega), b64CharVal_b64Char _ (by omega)]
      have : a / 4 * 4 + a % 4 * 16 / 16 = a := by
        have := mul_add_div_lt (x := a % 4) (b := 0) (k := 16) (by omega) (by omega)
        simpa using by omega
      simp only [List.cons.injEq, and_true]
      have e : a % 4 * 16 / 16 = a % 4 :=
        Nat.mul_div_cancel _ (by omega)
      rw [e]
      omega
  | case3 a b =>
      have ha : a < 256 := h a (by simp)
      have hb : b < 256 := h b (by simp)
      rw [b64encode, b64decode]
      rw [if_neg (by
        rintro ⟨h3, -, -⟩
        exact b64Char_ne_eq _ (by omega) h3)]
      rw [if_pos ⟨rfl, rfl⟩]
      rw [b64CharVal_b64Char _ (by omega), b64CharVal_b64Char _ (by omega),
        b64CharVal_b64Char _ (by omega)]
      have e1 := b64_byte1 (a := a) hb
      have e2 : (a % 4 * 16 + b / 16) % 16 * 16 + b % 16 * 4 / 4 = b := by
        rw [mul_add_mod_lt (by omega), Nat.mul_div_cancel _ (by omega)]
        omega
      simp only [List.cons.injEq, and_true]
      exact ⟨e1, e2⟩
  | case4 a b c rest ih =>
      have ha : a < 256 := h a (by simp)
      have hb : b < 256 := h b (by simp)
      have hc : c < 256 := h c (by simp)
      have hrest : ∀ x ∈ rest, x < 256 := fun x hx => h x (by simp [hx])
      rw [b64encode, b64decode]
      rw [if_neg (by
        rintro ⟨h3, -, -⟩
        exact b64Char_ne_eq _ (by omega) h3)]
      rw [if_neg (by
        rintro ⟨h4, -⟩
        exact b64Char_ne_eq _ (by omega) h4)]
      rw [b64CharVal_b64Char _ (by omega), b64CharVal_b64Char _ (by omega),
        b64CharVal_b64Char _ (by omega), b64CharVal_b64Char _ (by omega)]
      rw [ih hrest]
      rw [b64_byte1 (a := a) hb, b64_byte2 (a := a) hb hc, b64_byte3 (b := b) hc]

/--
Abstract model of Node's `crypto` AES-256-GCM primitive with the fixed
configured key (`getEncryptionKey()`):
`enc iv s` is the pair (ciphertext bytes, auth tag bytes) produced by
`createCipheriv` plus `update(s,'utf8')`/`final`/`getAuthTag`;
`dec iv tag ct` is `createDecipheriv`/`setAuthTag`/`update`/`final`,
returning `none` when any library call throws (bad iv, bad tag, auth
failure).  The three propositional fields state the library's contract:
outputs are bytes, and decryption with matching parameters restores the
plaintext. -/
structure GcmCipher where
  enc : List Nat → List Char → List Nat × List Nat
  dec : List Nat → List Nat → List Nat → Option (List Char)
  enc_ct_bytes : ∀ iv s, ∀ b ∈ (enc iv s).1, b < 256
  enc_tag_bytes : ∀ iv s, ∀ b ∈ (enc iv s).2, b < 256
  dec_enc : ∀ iv s, dec iv (enc iv s).2 (enc iv s).1 = some s

/-- Model of `encrypt(plaintext)`: empty input returns empty; otherwise the
result is `iv:authTag:ciphertext`, all base64.  The random `iv` is a
parameter. -/
def encrypt (C : GcmCipher) (iv : List Nat) (plaintext : List Char) : List Char :=
  if plaintext = [] then []
  else
    b64encode iv ++ ':' ::
      (b64encode (C.enc iv plaintext).2 ++ ':' :: b64encode (C.enc iv plaintext).1)

/-- Model of `decrypt(encryptedData)`: empty input returns empty;
non-three-segment input is returned as-is (legacy data); otherwise the three
base64 segments are decoded and deciphered, and the input is returned as-is
when deciphering throws. -/
def decrypt (C : GcmCipher) (encryptedData : List Char) : List Char :=
  if encryptedData = [] then []
  else
    match splitColon encryptedData with
    | [p0, p1, p2] =>
        match C.dec (b64decode p0) (b64decode p1) (b64decode p2) with
        | some m => m
        | none => encryptedData
    | _ => encryptedData

/-- Model of `maskSensitiveData(value, 4, 4)`: strings of length at most
`visibleStart + visibleEnd` are fully masked; otherwise the first
`visibleStart` and last `visibleEnd` characters are kept and the middle is
masked with at most 20 asterisks. -/
def maskSensitiveData (value : List Char) (visibleStart : Nat)
    (visibleEnd : Nat) : List Char :=
  if value = [] then []
  else if value.length ≤ visibleStart + visibleEnd then
    List.replicate value.length '*'
  else
    value.take visibleStart ++
      List.replicate (min 20 (value.length - visibleStart - visibleEnd)) '*' ++
      value.drop (value.length - visibleEnd)

/-- The masking property exactly as the specification states it, for the
default parameters: the first `min(4,L)` and last `min(4,L)` characters of
the masked form agree with the original, every other character of the
masked form is `*`, and there are at most 20 such masked characters. -/
def maskClaimHolds (v : List Char) : Prop :=
  (maskSensitiveData v 4 4).take (min 4 v.length) = v.take (min 4 v.length) ∧
  (maskSensitiveData v 4 4).drop ((maskSensitiveData v 4 4).length - min 4 v.length) =
    v.drop (v.length - min 4 v.length) ∧
  (∀ i < (maskSensitiveData v 4 4).length, min 4 v.length ≤ i →
    i < (maskSensitiveData v 4 4).length - min 4 v.length →
    (maskSensitiveData v 4 4).getD i '?' = '*') ∧
  (maskSensitiveData v 4 4).length - 2 * min 4 v.length ≤ 20

instance (v : List Char) : Decidable (maskClaimHolds v) := by
  unfold maskClaimHolds
  infer_instance

/-- Four-byte little-endian encoding of one character (used to build a
concrete cipher instance). -/
def charBytes (c : Char) : List Nat :=
  [c.toNat % 256, c.toNat / 256 % 256, c.toNat / 65536 % 256, c.toNat / 16777216 % 256]

/-- Byte encoding of a character list. -/
def strBytes : List Char → List Nat
  | [] => []
  | c :: cs => charBytes c ++ strBytes cs

/-- Partial inverse of `strBytes`. -/
def bytesChars : List Nat → Option (List Char)
  | [] => some []
  | b0 :: b1 :: b2 :: b3 :: rest =>
      (bytesChars rest).map
        (fun cs => Char.ofNat (b0 + 256 * b1 + 65536 * b2 + 16777216 * b3) :: cs)
  | _ => none

theorem strBytes_lt (s : List Char) : ∀ b ∈ strBytes s, b < 256 := by
  induction s with
  | nil => simp [strBytes]
  | cons c cs ih =>
      intro b hb
      rcases List.mem_append.mp hb with h | h
      · simp only [charBytes, List.mem_cons, List.not_mem_nil, or_false] at h
        rcases h with h | h | h | h <;> omega
      · exact ih b h

theorem bytesChars_strBytes (s : List Char) : bytesChars (strBytes s) = some s := by
  induction s with
  | nil => rfl
  | cons c cs ih =>
      have hlt : c.toNat < 4294967296 := by
        have h : c.toNat = c.val.toNat := rfl
        rcases c.valid with h1 | ⟨h1, h2⟩ <;> omega
      have hsum : c.toNat % 256 + 256 * (c.toNat / 256 % 256) +
          65536 * (c.toNat / 65536 % 256) + 16777216 * (c.toNat / 16777216 % 256) =
          c.toNat := by omega
      have hstep : bytesChars (strBytes (c :: cs)) =
          (bytesChars (strBytes cs)).map (fun l =>
            Char.ofNat (c.toNat % 256 + 256 * (c.toNat / 256 % 256) +
              65536 * (c.toNat / 65536 % 256) +
              16777216 * (c.toNat / 16777216 % 256)) :: l) := rfl
      rw [hstep, ih]
      simp only [Option.map_some', hsum, Char.ofNat_toNat]

/-- Concrete instantiation of the cipher contract (an invertible byte codec
with an empty tag), used to witness the abstract theorems. -/
def codecCipher : GcmCipher where
  enc := fun _ s => (strBytes s, [])
  dec := fun _ _ ct => bytesChars ct
  enc_ct_bytes := fun _ s => strBytes_lt s
  enc_tag_bytes := by intro iv s b hb; simp at hb
  dec_enc := fun _ s => bytesChars_strBytes s

/-- C8: under the configured key (any cipher satisfying the library
contract) and any byte-valued random IV, `decrypt (encrypt x) = x` for every
non-empty string `x`; and `decrypt` returns its input unchanged on any input
that does not split into exactly three colon-separated segments. -/
theorem crypto_roundtrip_and_passthrough (C : GcmCipher) (iv : List Nat)
    (x e : List Char) (hiv : ∀ b ∈ iv, b < 256) (hx : x ≠ [])
    (he : (splitColon e).length ≠ 3) :
    decrypt C (encrypt C iv x) = x ∧ decrypt C e = e := by
  constructor
  · unfold encrypt
    rw [if_neg hx]
    unfold decrypt
    rw [if_neg (by
      intro h
      rcases hiv0 : b64encode iv with _ | ⟨y, ys⟩
      · rw [hiv0] at h
        simp at h
      · rw [hiv0] at h
        simp at h)]
    rw [splitColon_append (b64encode_no_colon iv),
      splitColon_append (b64encode_no_colon _),
      splitColon_no_colon (b64encode_no_colon _)]
    simp only
    rw [b64decode_b64encode hiv, b64decode_b64encode (C.enc_tag_bytes iv x),
      b64decode_b64encode (C.enc_ct_bytes iv x), C.dec_enc]
  · unfold decrypt
    by_cases he0 : e = []
    · subst he0
      simp
    · rw [if_neg he0]
      split
      · next p0 p1 p2 hs => exact absurd (by rw [hs]; rfl) he
      · rfl

/-- Closed witness for the crypto round-trip and pass-through theorem. -/
theorem crypto_roundtrip_and_passthrough_witness :
    decrypt codecCipher (encrypt codecCipher [7, 200] ['h', 'i']) = ['h', 'i'] ∧
    decrypt codecCipher ['a', 'b'] = ['a', 'b'] :=
  crypto_roundtrip_and_passthrough codecCipher [7, 200] ['h', 'i'] ['a', 'b']
    (by decide) (by decide) (by decide)

/-- C10: on any input splitting into exactly three colon-separated segments
whose authenticated decryption fails, `decrypt` raises no error and returns
the input string itself verbatim. -/
theorem decrypt_failed_passthrough (C : GcmCipher) (e p0 p1 p2 : List Char)
    (hs : splitColon e = [p0, p1, p2])
    (hd : C.dec (b64decode p0) (b64decode p1) (b64decode p2) = none) :
    decrypt C e = e := by
  have he0 : e ≠ [] := by
    intro h
    subst h
    simp [splitColon] at hs
  unfold decrypt
  rw [if_neg he0]
  simp only [hs, hd]

/-- Closed witness for the failed-decryption pass-through theorem. -/
theorem decrypt_failed_passthrough_witness :
    decrypt codecCipher ("AA==:AA==:AA==".data) = "AA==:AA==:AA==".data :=
  decrypt_failed_passthrough codecCipher "AA==:AA==:AA==".data
    "AA==".data "AA==".data "AA==".data (by decide) (by decide)

/-- C9 counterexample: on the 8-character string `abcdefgh` the masked form
is `********`, so its first `min(4, 8) = 4` characters do not agree with the
original, refuting the claim as stated. -/
theorem maskSensitiveData_claim_false :
    ¬ maskClaimHolds ['a', 'b', 'c', 'd', 'e', 'f', 'g', 'h'] := by
  decide

/-- C9 (amended): for strings of length greater than 8 the masking property
holds exactly as the specification states it; strings of length at most 8
are fully masked (every character becomes `*`), retaining nothing. -/
theorem maskSensitiveData_amended (v : List Char) :
    (v.length ≤ 8 → maskSensitiveData v 4 4 = List.replicate v.length '*') ∧
    (8 < v.length → maskClaimHolds v) := by
  constructor
  · intro hle
    unfold maskSensitiveData
    by_cases h0 : v = []
    · subst h0
      simp
    · rw [if_neg h0, if_pos hle]
  · intro hgt
    have h0 : v ≠ [] := by
      intro h
      subst h
      simp at hgt
    set k := min 20 (v.length - 4 - 4) with hk
    set A := v.take 4 with hA
    set B := List.replicate k '*' with hB
    set D := v.drop (v.length - 4) with hD
    have hmask : maskSensitiveData v 4 4 = A ++ B ++ D := by
      unfold maskSensitiveData
      rw [if_neg h0, if_neg (by omega)]
    have htl : A.length = 4 := by
      rw [hA, List.length_take]
      omega
    have hrl : B.length = k := by
      rw [hB, List.length_replicate]
    have hdl : D.length = 4 := by
      rw [hD, List.length_drop]
      omega
    have hml : (maskSensitiveData v 4 4).length = 4 + k + 4 := by
      rw [hmask]
      simp only [List.length_append, htl, hrl, hdl]
    have hmin : min 4 v.length = 4 := by omega
    refine ⟨?_, ?_, ?_, ?_⟩
    · rw [hmin, hmask, List.append_assoc]
      rw [List.take_append_of_le_length (by omega), List.take_of_length_le (by omega)]
    · rw [hmin, hml, hmask]
      have hidx : 4 + k + 4 - 4 = (A ++ B).length := by
        rw [List.length_append, htl, hrl]
        omega
      rw [hidx, List.drop_left]
    · intro i hi hi4 hiu
      rw [hmin] at hi4 hiu
      rw [hml] at hiu
      rw [hmask, List.append_assoc]
      rw [List.getD_append_right]
      swap
      · omega
      rw [htl, List.getD_append]
      swap
      · rw [hrl]
        omega
      have hik : i - 4 < k := by omega
      rw [hB]
      simp [List.getD, List.getElem?_replicate, hik]
    · rw [hml, hmin]
      omega

/-- Closed witness for the amended masking theorem. -/
theorem maskSensitiveData_amended_witness :
    maskSensitiveData ['a', 'b', 'c'] 4 4 = List.replicate 3 '*' ∧
    maskClaimHolds ['0', '1', '2', '3', '4', '5', '6', '7', '8', '9'] :=
  ⟨(maskSensitiveData_amended ['a', 'b', 'c']).1 (by decide),
   (maskSensitiveData_amended ['0', '1', '2', '3', '4', '5', '6', '7', '8', '9']).2
     (by decide)⟩

end CryptoService

/-!
PIN verification rate limiting (`apiKeysController.ts`).

The `PinAttempt` Mongo collection has one row per (client IP, user id) with
an attempt counter and a blocked flag (schema defaults 0 / false); a missing
row reads as the defaults, matching both `findOne` (`attempt?.isBlocked ||
false`) and the `$inc` upsert.  `verifyPin` is modelled on its core path:
authenticated user, PIN present in the request and configured on the user;
`pinOk` stands for the outcome of the bcrypt comparison `user.comparePin`.
-/

namespace ApiKeysController

/-- Maximum failed attempts before blocking (`MAX_PIN_ATTEMPTS`). -/
def maxPinAttempts : Nat := 5

/-- One row of the `PinAttempt` collection. -/
structure PinRecord where
  attempts : Nat
  isBlocked : Bool
deriving DecidableEq

/-- Schema defaults: `attempts: 0`, `isBlocked: false`. -/
def emptyRecord : PinRecord := ⟨0, false⟩

/-- The `PinAttempt` store keyed by (ip, userId). -/
def PinStore := String → String → PinRecord

/-- Read a row (missing rows read as the schema defaults). -/
def getAttempt (s : PinStore) (ip uid : String) : PinRecord := s ip uid

/-- Write a row. -/
def setAttempt (s : PinStore) (ip uid : String) (r : PinRecord) : PinStore :=
  fun i u => if i = ip ∧ u = uid then r else s i u

/-- Model of `recordFailedPinAttempt`: `$inc` the attempt counter (upsert),
then if the new count has reached `MAX_PIN_ATTEMPTS` on a not-yet-blocked
row, set the blocked flag and report blocking; the returned pair is
`(blocked, attempts)`. -/
def recordFailedPinAttempt (s : PinStore) (ip uid : String) :
    (Bool × Nat) × PinStore :=
  let prev := getAttempt s ip uid
  let a : PinRecord := { prev with attempts := prev.attempts + 1 }
  let s1 := setAttempt s ip uid a
  if a.attempts ≥ maxPinAttempts ∧ a.isBlocked = false then
    ((true, a.attempts), setAttempt s1 ip uid { a with isBlocked := true })
  else
    ((false, a.attempts), s1)

/-- Model of `resetPinAttempts`: set the attempt counter to zero (the
blocked flag is not touched). -/
def resetPinAttempts (s : PinStore) (ip uid : String) : PinStore :=
  setAttempt s ip uid { getAttempt s ip uid with attempts := 0 }

/-- Shape of the HTTP response of `verifyPin`: status code, `success`,
the `isBlocked` body field (absent modelled as `false`) and the optional
`attemptsRemaining` body field. -/
structure VerifyResult where
  status : Nat
  success : Bool
  isBlocked : Bool
  attemptsRemaining : Option Int
deriving DecidableEq

/-- The 403 "blocked" response (`isBlocked: true`). -/
def blockedResponse : VerifyResult := ⟨403, false, true, none⟩

/-- The 403 "invalid PIN" response carrying the remaining attempt count. -/
def invalidResponse (remaining : Int) : VerifyResult := ⟨403, false, false, some remaining⟩

/-- The 200 success response. -/
def successResponse : VerifyResult := ⟨200, true, false, none⟩

/-- Model of `verifyPin` (core path): blocked-IP short-circuit, failure
recording with block-on-threshold, attempt reset on success. -/
def verifyPin (s : PinStore) (ip uid : String) (pinOk : Bool) :
    VerifyResult × PinStore :=
  if (getAttempt s ip uid).isBlocked then (blockedResponse, s)
  else if pinOk = false then
    let r := recordFailedPinAttempt s ip uid
    if r.1.1 then (blockedResponse, r.2)
    else (invalidResponse ((maxPinAttempts : Int) - (r.1.2 : Int)), r.2)
  else
    (successResponse, resetPinAttempts s ip uid)

/-- Iterate `n` failed `verifyPin` calls from the same (ip, uid). -/
def failN : Nat → PinStore → String → String → PinStore
  | 0, s, _, _ => s
  | n + 1, s, ip, uid => failN n (verifyPin s ip uid false).2 ip uid

theorem getAttempt_setAttempt_same (s : PinStore) (ip uid : String) (r : PinRecord) :
    getAttempt (setAttempt s ip uid r) ip uid = r := by
  simp [getAttempt, setAttempt]

theorem getAttempt_setAttempt_ne (s : PinStore) (ip uid ip' uid' : String)
    (r : PinRecord) (h : ip' ≠ ip) :
    getAttempt (setAttempt s ip uid r) ip' uid' = getAttempt s ip' uid' := by
  simp only [getAttempt, setAttempt]
  rw [if_neg]
  rintro ⟨h1, -⟩
  exact h h1

theorem verifyPin_step_not_last (s : PinStore) (ip uid : String) (n : Nat)
    (hrec : getAttempt s ip uid = ⟨n, false⟩) (hn : n + 1 < maxPinAttempts) :
    (verifyPin s ip uid false).1 =
      invalidResponse ((maxPinAttempts : Int) - ((n + 1 : Nat) : Int)) ∧
    getAttempt (verifyPin s ip uid false).2 ip uid = ⟨n + 1, false⟩ := by
  have h5 : ¬ maxPinAttempts ≤ n + 1 := by omega
  constructor
  · simp [verifyPin, recordFailedPinAttempt, hrec, h5]
  · simp [verifyPin, recordFailedPinAttempt, hrec, h5, getAttempt_setAttempt_same]

theorem verifyPin_step_last (s : PinStore) (ip uid : String) (n : Nat)
    (hrec : getAttempt s ip uid = ⟨n, false⟩) (hn : maxPinAttempts ≤ n + 1) :
    (verifyPin s ip uid false).1 = blockedResponse ∧
    getAttempt (verifyPin s ip uid false).2 ip uid = ⟨n + 1, true⟩ := by
  constructor
  · simp [verifyPin, recordFailedPinAttempt, hrec, hn]
  · simp [verifyPin, recordFailedPinAttempt, hrec, hn, getAttempt_setAttempt_same]

theorem verifyPin_preserves_other (s : PinStore) (ip uid ip' uid' : String)
    (ok : Bool) (h : ip' ≠ ip) :
    getAttempt (verifyPin s ip uid ok).2 ip' uid' = getAttempt s ip' uid' := by
  by_cases h1 : (getAttempt s ip uid).isBlocked
  · simp [verifyPin, h1]
  · by_cases h2 : ok
    · simp [verifyPin, h1, h2, resetPinAttempts, getAttempt_setAttempt_ne _ _ _ _ _ _ h]
    · by_cases h3 : maxPinAttempts ≤ (getAttempt s ip uid).attempts + 1
      · simp [verifyPin, recordFailedPinAttempt, h1, h2, h3,
          getAttempt_setAttempt_ne _ _ _ _ _ _ h]
      · simp [verifyPin, recordFailedPinAttempt, h1, h2, h3,
          getAttempt_setAttempt_ne _ _ _ _ _ _ h]

theorem failN_preserves_other (n : Nat) (s : PinStore) (ip uid ip' uid' : String)
    (h : ip' ≠ ip) :
    getAttempt (failN n s ip uid) ip' uid' = getAttempt s ip' uid' := by
  induction n generalizing s with
  | zero => rfl
  | succ n ih =>
      unfold failN
      rw [ih, verifyPin_preserves_other _ _ _ _ _ _ h]

/-- C7: after five failed `verifyPin` calls from one (IP, user) pair
starting from a fresh record, the sixth call from that pair returns the
403 blocked response (`isBlocked: true`) regardless of whether the
submitted PIN is correct; one successful verification from a
not-yet-blocked pair succeeds and resets that pair's attempt counter to
zero; and blocking is keyed per (IP, user): the five failures at one IP
leave every other IP's record untouched, so a different unblocked IP with
the correct PIN still succeeds. -/
theorem verifyPin_rate_limit_spec (s t : PinStore) (ip ip2 uid : String)
    (pinOk : Bool)
    (hfresh : getAttempt s ip uid = emptyRecord)
    (hne : ip2 ≠ ip)
    (ht : (getAttempt t ip uid).isBlocked = false)
    (h2 : (getAttempt s ip2 uid).isBlocked = false) :
    (verifyPin (failN 5 s ip uid) ip uid pinOk).1 = blockedResponse ∧
    ((verifyPin t ip uid true).1 = successResponse ∧
      (getAttempt (verifyPin t ip uid true).2 ip uid).attempts = 0) ∧
    (verifyPin (failN 5 s ip uid) ip2 uid true).1 = successResponse := by
  have e1 := (verifyPin_step_not_last s ip uid 0 hfresh
    (by norm_num [maxPinAttempts])).2
  have e2 := (verifyPin_step_not_last _ ip uid 1 e1
    (by norm_num [maxPinAttempts])).2
  have e3 := (verifyPin_step_not_last _ ip uid 2 e2
    (by norm_num [maxPinAttempts])).2
  have e4 := (verifyPin_step_not_last _ ip uid 3 e3
    (by norm_num [maxPinAttempts])).2
  have e5 := (verifyPin_step_last _ ip uid 4 e4
    (by norm_num [maxPinAttempts])).2
  have u : failN 5 s ip uid =
      (verifyPin (verifyPin (verifyPin (verifyPin (verifyPin s ip uid
        false).2 ip uid false).2 ip uid false).2 ip uid false).2 ip uid false).2 := rfl
  have hb : getAttempt (failN 5 s ip uid) ip uid = ⟨5, true⟩ := by
    rw [u]
    exact e5
  refine ⟨?_, ⟨?_, ?_⟩, ?_⟩
  · have hbk : (getAttempt (failN 5 s ip uid) ip uid).isBlocked = true := by rw [hb]
    simp [verifyPin, hbk]
  · simp [verifyPin, ht]
  · simp [verifyPin, ht, resetPinAttempts, getAttempt_setAttempt_same]
  · have hp := failN_preserves_other 5 s ip uid ip2 uid hne
    simp [verifyPin, hp, h2]

/-- Closed witness for the PIN rate-limit theorem, at a concrete empty
store and two distinct IPs. -/
theorem verifyPin_rate_limit_spec_witness :
    (verifyPin (failN 5 (fun _ _ => emptyRecord) "10.0.0.1" "u1") "10.0.0.1" "u1" true).1 =
      blockedResponse ∧
    ((verifyPin (fun _ _ => emptyRecord) "10.0.0.1" "u1" true).1 = successResponse ∧
      (getAttempt (verifyPin (fun _ _ => emptyRecord) "10.0.0.1" "u1" true).2
        "10.0.0.1" "u1").attempts = 0) ∧
    (verifyPin (failN 5 (fun _ _ => emptyRecord) "10.0.0.1" "u1") "10.0.0.2" "u1" true).1 =
      successResponse :=
  verifyPin_rate_limit_spec (fun _ _ => emptyRecord) (fun _ _ => emptyRecord)
    "10.0.0.1" "10.0.0.2" "u1" true rfl (by decide) rfl rfl

end ApiKeysController

/-!
Article block data model (`types/index.ts`).
-/

/-- Block types of `ArticleBlockType`. -/
inductive BlockType
  | h1
  | intro
  | h2
  | h3
  | conclusion
  | faq
deriving DecidableEq, Repr

/-- An answered research question (`AnsweredQuestion`).  The floating-point
similarity score is carried as a rational. -/
structure AnsweredQuestion where
  question : String
  answer : String
  source : Option String
  similarity : ℚ
deriving DecidableEq, Repr

/-- An article block (`ArticleBlock`).  Optional fields model `undefined`. -/
structure ArticleBlock where
  id : Nat
  type : BlockType
  heading : String
  instruction : String
  lsi : List String
  questions : Option (List String)
  answeredQuestions : Option (List AnsweredQuestion)
  content : Option String
deriving DecidableEq, Repr

/-- Structure analysis result (`StructureAnalysis`). -/
structure StructureAnalysis where
  averageWordCount : Nat
  commonPatterns : List String
  strengths : List String
  weaknesses : List String
  recommendedStructure : List ArticleBlock
deriving DecidableEq, Repr

namespace OpenRouterService

/-!
Pure logic of `OpenRouterService` (`services/OpenRouterService.ts`).  The
LLM chat response is environmental; the functions below embed what the
service does with the parsed response.
-/

/-- Replace the first block of the given type: delete its `questions`, and
clear its heading when `clearHeading` is set (the `find` + in-place
mutation in `analyzeStructures`). -/
def clearQuestionsFirst (t : BlockType) (clearHeading : Bool) :
    List ArticleBlock → List ArticleBlock
  | [] => []
  | b :: rest =>
      if b.type = t then
        { b with questions := none,
                 heading := if clearHeading then "" else b.heading } :: rest
      else b :: clearQuestionsFirst t clearHeading rest

/-- Model of `analyzeStructures` applied to the parsed LLM JSON response:
reject structures with fewer than five blocks, then delete the questions of
the first intro block (clearing its heading), and of the first conclusion,
FAQ and h1 blocks. -/
def analyzeStructures (parsed : StructureAnalysis) : Except String StructureAnalysis :=
  if parsed.recommendedStructure.length < 5 then
    .error "Invalid structure: too few blocks"
  else
    .ok { parsed with
      recommendedStructure :=
        clearQuestionsFirst .h1 false
          (clearQuestionsFirst .faq false
            (clearQuestionsFirst .conclusion false
              (clearQuestionsFirst .intro true parsed.recommendedStructure))) }

/-- Model of `Array.prototype.map` with the element index (used by
`enrichBlockInstructions`). -/
def mapWithIndex (f : Nat → ArticleBlock → ArticleBlock) :
    Nat → List ArticleBlock → List ArticleBlock
  | _, [] => []
  | i, b :: rest => f i b :: mapWithIndex f (i + 1) rest

/-- Model of `enrichBlockInstructions` applied to the parsed LLM response:
on any error the original blocks are returned unchanged; on success each
enriched block gets `id := idx` and its questions dropped when its type is
`intro`, `conclusion`, `faq` or `h1`. -/
def enrichBlockInstructions (blocks : List ArticleBlock)
    (resp : Except String (List ArticleBlock)) : List ArticleBlock :=
  match resp with
  | .error _ => blocks
  | .ok enriched =>
      mapWithIndex (fun idx b =>
        { b with
          id := idx,
          questions :=
            if b.type = .intro ∨ b.type = .conclusion ∨ b.type = .faq ∨ b.type = .h1
            then none else b.questions }) 0 enriched

theorem mapWithIndex_ids (f : Nat → ArticleBlock → ArticleBlock)
    (hf : ∀ i b, (f i b).id = i) :
    ∀ (l : List ArticleBlock) (i : Nat),
      (mapWithIndex f i l).map (·.id) = List.range' i l.length := by
  intro l
  induction l with
  | nil => intro i; rfl
  | cons b rest ih =>
      intro i
      rw [List.length_cons, List.range'_succ i rest.length 1]
      simp only [mapWithIndex, List.map_cons, hf, ih]

theorem mapWithIndex_mem (f : Nat → ArticleBlock → ArticleBlock) :
    ∀ (l : List ArticleBlock) (i : Nat) (b : ArticleBlock),
      b ∈ mapWithIndex f i l → ∃ j c, c ∈ l ∧ b = f j c := by
  intro l
  induction l with
  | nil => intro i b h; simp [mapWithIndex] at h
  | cons c rest ih =>
      intro i b h
      rw [mapWithIndex] at h
      rcases List.mem_cons.mp h with h | h
      · exact ⟨i, c, List.mem_cons_self _ _, h⟩
      · obtain ⟨j, d, hd, hb⟩ := ih _ _ h
        exact ⟨j, d, List.mem_cons_of_mem _ hd, hb⟩

/-- The blocks persisted after structure analysis for a given parsed
response (empty when the analysis is rejected). -/
def structureSnapshot (parsed : StructureAnalysis) : List ArticleBlock :=
  match analyzeStructures parsed with
  | .ok a => a.recommendedStructure
  | .error _ => []

/-- The block-list invariant exactly as the claim states it: pairwise
distinct ids, exactly one `h1` block, and no `questions` list on `intro`,
`h1` or `faq` blocks. -/
def blockInvariant (blocks : List ArticleBlock) : Prop :=
  (blocks.map (·.id)).Nodup ∧
  (blocks.filter (fun b => b.type == BlockType.h1)).length = 1 ∧
  ∀ b ∈ blocks, (b.type = .intro ∨ b.type = .h1 ∨ b.type = .faq) → b.questions = none

instance (blocks : List ArticleBlock) : Decidable (blockInvariant blocks) := by
  unfold blockInvariant
  infer_instance

/-- A five-block parsed response with two `h1` blocks sharing id 0, both
carrying questions: `analyzeStructures` accepts it unchanged except for the
first-of-type question deletions. -/
def badParsed : StructureAnalysis where
  averageWordCount := 2000
  commonPatterns := []
  strengths := []
  weaknesses := []
  recommendedStructure :=
    [⟨0, .h1, "T", "", [], some ["qa"], none, none⟩,
     ⟨0, .h1, "T2", "", [], some ["qb"], none, none⟩,
     ⟨1, .intro, "", "", [], none, none, none⟩,
     ⟨2, .conclusion, "C", "", [], none, none, none⟩,
     ⟨3, .faq, "F", "", [], none, none, none⟩]

/-- C6 counterexample: the snapshot persisted after structure analysis for
`badParsed` is accepted by the code but has duplicate block ids, two `h1`
blocks, and an `h1` block still carrying questions — all three conjuncts of
the claimed invariant fail at this snapshot. -/
theorem blockInvariant_claim_false :
    (analyzeStructures badParsed).isOk = true ∧
    ¬ blockInvariant (structureSnapshot badParsed) := by
  constructor
  · rfl
  · decide

/-- C6 (amended): the code never validates id uniqueness or h1 uniqueness
of the structure-analysis snapshot (and deletes questions only from the
first block of each special type), so the claimed invariant can fail there;
but whenever block enrichment succeeds, the enriched snapshot has pairwise
distinct ids `0..n-1` and no `questions` list on any `intro`, `conclusion`,
`faq` or `h1` block. -/
theorem enrichBlockInstructions_invariants (blocks enriched : List ArticleBlock) :
    ((enrichBlockInstructions blocks (.ok enriched)).map (·.id)).Nodup ∧
    ∀ b ∈ enrichBlockInstructions blocks (.ok enriched),
      (b.type = .intro ∨ b.type = .conclusion ∨ b.type = .faq ∨ b.type = .h1) →
      b.questions = none := by
  constructor
  · unfold enrichBlockInstructions
    rw [mapWithIndex_ids _ (fun i b => rfl)]
    exact List.nodup_range' 0 enriched.length 1 (by omega)
  · intro b hb htype
    unfold enrichBlockInstructions at hb
    obtain ⟨j, c, hc, hbc⟩ := mapWithIndex_mem _ _ _ _ hb
    subst hbc
    have : c.type = .intro ∨ c.type = .conclusion ∨ c.type = .faq ∨ c.type = .h1 := htype
    simp only [if_pos this]

/-- A two-block parsed enrichment response with clashing ids and stray
questions (used to witness the enrichment invariant). -/
def demoEnriched : List ArticleBlock :=
  [⟨7, .h1, "T", "", [], some ["q"], none, none⟩,
   ⟨7, .intro, "", "", [], some ["q2"], none, none⟩]

/-- Closed witness for the amended enrichment invariant. -/
theorem enrichBlockInstructions_invariants_witness :
    ((enrichBlockInstructions [] (.ok demoEnriched)).map (·.id)).Nodup ∧
    (⟨0, .h1, "T", "", [], none, none, none⟩ : ArticleBlock).questions = none :=
  ⟨(enrichBlockInstructions_invariants [] demoEnriched).1,
   (enrichBlockInstructions_invariants [] demoEnriched).2
     ⟨0, .h1, "T", "", [], none, none, none⟩ (by decide) (by decide)⟩

/-- Display types of internal links (`LinkDisplayType`). -/
inductive LinkDisplayType
  | inline
  | listEnd
  | listStart
  | sidebar
deriving DecidableEq, Repr

/-- Requested positions of internal links (`LinkPosition`). -/
inductive LinkPosition
  | intro
  | body
  | conclusion
  | any
deriving DecidableEq, Repr

/-- The block shape passed to `selectBlocksForLinks`
(`{id, type, heading, content}`). -/
structure LinkTarget where
  id : Nat
  type : BlockType
  heading : String
  content : Option String
deriving DecidableEq, Repr

/-- An internal link descriptor. -/
structure InternalLink where
  url : String
  anchor : Option String
  isAnchorless : Bool
  displayType : LinkDisplayType
  position : LinkPosition
deriving DecidableEq, Repr

/-- A link-to-block assignment
(`{linkIndex, blockId, finalAnchor}`). -/
structure LinkSelection where
  linkIndex : Nat
  blockId : Nat
  finalAnchor : String
deriving DecidableEq, Repr

/-- JavaScript truthiness of `b.content` (absent or empty is falsy). -/
def hasContent (b : LinkTarget) : Bool :=
  match b.content with
  | none => false
  | some s => s != ""

/-- Final anchor: `link.isAnchorless ? link.url : (link.anchor || link.url)`. -/
def finalAnchorOf (link : InternalLink) : String :=
  if link.isAnchorless then link.url
  else
    match link.anchor with
    | none => link.url
    | some a => if a = "" then link.url else a

/-- The first intro block with content (`introBlock`). -/
def introBlockOf (blocks : List LinkTarget) : Option LinkTarget :=
  blocks.find? (fun b => b.type == BlockType.intro && hasContent b)

/-- The first conclusion block with content (`conclusionBlock`). -/
def conclusionBlockOf (blocks : List LinkTarget) : Option LinkTarget :=
  blocks.find? (fun b => b.type == BlockType.conclusion && hasContent b)

/-- The h2/h3 blocks with content (`bodyBlocks`). -/
def bodyBlocksOf (blocks : List LinkTarget) : List LinkTarget :=
  blocks.filter (fun b => (b.type == BlockType.h2 || b.type == BlockType.h3) && hasContent b)

/-- Eligible blocks for position `any` with respect to the used set, as
recomputed per link in the source. -/
def anyBlocksFor (blocks : List LinkTarget) (used : List Nat) : List LinkTarget :=
  blocks.filter (fun b =>
    b.type != BlockType.h1 && (b.type != BlockType.faq && (hasContent b &&
      !(used.contains b.id))))

/-- The `any`-eligible blocks independent of the used set. -/
def anyBlocksOf (blocks : List LinkTarget) : List LinkTarget :=
  blocks.filter (fun b =>
    b.type != BlockType.h1 && (b.type != BlockType.faq && hasContent b))

/-- The `switch (link.position)` of the selection loop: which block the
current link lands on, given the used set. -/
def selectedFor (blocks : List LinkTarget) (pos : LinkPosition) (used : List Nat) :
    Option LinkTarget :=
  match pos with
  | .intro => introBlockOf blocks
  | .conclusion => conclusionBlockOf blocks
  | .body => (bodyBlocksOf blocks).find? (fun b => !(used.contains b.id))
  | .any => (anyBlocksFor blocks used).head?

/-- The selection loop of `selectBlocksForLinks`: one pass over the links
carrying the absolute link index and the set (here: list) of used block
ids; `intro`/`conclusion` links all map to the single intro/conclusion
block, `body` links take the first unused h2/h3 block, `any` links take the
first unused non-h1/non-faq block; links with no eligible block are
skipped.  The used set only ever grows in the `body`/`any` cases, as in the
source. -/
def selectLoop (blocks : List LinkTarget) :
    Nat → List InternalLink → List Nat → List LinkSelection
  | _, [], _ => []
  | linkIndex, link :: rest, used =>
      match selectedFor blocks link.position used with
      | none => selectLoop blocks (linkIndex + 1) rest used
      | some b =>
          let used' :=
            if link.position = .body ∨ link.position = .any then b.id :: used else used
          ⟨linkIndex, b.id, finalAnchorOf link⟩ ::
            selectLoop blocks (linkIndex + 1) rest used'

/-- Model of `selectBlocksForLinks` (the `language` argument is unused by
the source as well). -/
def selectBlocksForLinks (blocks : List LinkTarget) (links : List InternalLink)
    (language : String) : List LinkSelection :=
  if links.isEmpty then [] else selectLoop blocks 0 links []

/-- Ids of the body blocks. -/
def bodyIds (blocks : List LinkTarget) : List Nat := (bodyBlocksOf blocks).map (·.id)

/-- Ids of the `any`-eligible blocks. -/
def anyIds (blocks : List LinkTarget) : List Nat := (anyBlocksOf blocks).map (·.id)

/-- Block ids assigned to links of a given position. -/
def assignedIds (links : List InternalLink) (pos : LinkPosition)
    (sels : List LinkSelection) : List Nat :=
  (sels.filter (fun sel =>
    match links[sel.linkIndex]? with
    | some l => l.position == pos
    | none => false)).map (·.blockId)

theorem find?_unused_head (l : List LinkTarget) (used : List Nat) (b : LinkTarget)
    (h : l.find? (fun t => !(used.contains t.id)) = some b) :
    ∃ T, (l.map (·.id)).filter (fun x => !(used.contains x)) = b.id :: T ∧
      List.Sublist ((l.map (·.id)).filter (fun x => !((b.id :: used).contains x))) T := by
  induction l with
  | nil => simp [List.find?] at h
  | cons t rest ih =>
      by_cases hc : used.contains t.id
      · have hm : t.id ∈ used := by simpa using hc
        rw [List.find?_cons_of_neg _ (by simp [hm])] at h
        obtain ⟨T, hT, hsub⟩ := ih h
        refine ⟨T, ?_, ?_⟩
        · rw [List.map_cons, List.filter_cons, if_neg (by simp [hm]), hT]
        · rw [List.map_cons, List.filter_cons, if_neg (by simp [hm])]
          exact hsub
      · have hm : t.id ∉ used := by simpa using hc
        rw [List.find?_cons_of_pos _ (by simp [hm])] at h
        have hb : b = t := by
          injection h with h'
          exact h'.symm
        subst hb
        refine ⟨(rest.map (·.id)).filter (fun x => !(used.contains x)), ?_, ?_⟩
        · rw [List.map_cons, List.filter_cons, if_pos (by simp [hm])]
        · rw [List.map_cons, List.filter_cons, if_neg (by simp)]
          refine List.monotone_filter_right _ ?_
          intro x hx
          simp only [Bool.not_eq_true'] at hx ⊢
          rw [List.contains_cons] at hx
          exact (Bool.or_eq_false_iff.mp hx).2

theorem anyBlocksFor_head? (blocks : List LinkTarget) (used : List Nat) :
    (anyBlocksFor blocks used).head? =
      (anyBlocksOf blocks).find? (fun b => !(used.contains b.id)) := by
  unfold anyBlocksFor anyBlocksOf
  induction blocks with
  | nil => rfl
  | cons t rest ih =>
      rw [List.filter_cons, List.filter_cons]
      by_cases h1 : (t.type != BlockType.h1 && (t.type != BlockType.faq && hasContent t))
      · by_cases h2 : used.contains t.id
        · have hm : t.id ∈ used := by simpa using h2
          rw [if_neg (by simp_all), if_pos h1,
            List.find?_cons_of_neg _ (by simp [hm])]
          exact ih
        · have hm : t.id ∉ used := by simpa using h2
          rw [if_pos (by simp_all), if_pos h1,
            List.find?_cons_of_pos _ (by simp [hm])]
          rfl
      · rw [if_neg (by
            intro hcon
            apply h1
            simp only [Bool.and_eq_true] at hcon ⊢
            exact ⟨hcon.1, hcon.2.1, hcon.2.2.1⟩), if_neg h1]
        exact ih

theorem contains_tail_false {c x : Nat} {used : List Nat}
    (h : (c :: used).contains x = false) : used.contains x = false := by
  rw [List.contains_cons] at h
  exact (Bool.or_eq_false_iff.mp h).2

theorem ne_of_contains_cons_false {c x : Nat} {used : List Nat}
    (h : (c :: used).contains x = false) : x ≠ c := by
  rw [List.contains_cons] at h
  have h1 := (Bool.or_eq_false_iff.mp h).1
  simpa using h1

theorem assignedIds_cons (links : List InternalLink) (pos : LinkPosition)
    (sel : LinkSelection) (S : List LinkSelection) :
    assignedIds links pos (sel :: S) =
      if (match links[sel.linkIndex]? with
          | some l => l.position == pos
          | none => false) = true
      then sel.blockId :: assignedIds links pos S
      else assignedIds links pos S := by
  unfold assignedIds
  rw [List.filter_cons]
  by_cases h : (match links[sel.linkIndex]? with
      | some l => l.position == pos
      | none => false) = true
  · rw [if_pos h, if_pos h, List.map_cons]
  · rw [if_neg h, if_neg h]

theorem selectLoop_sound (blocks : List LinkTarget) :
    ∀ (rest : List InternalLink) (i0 : Nat) (used : List Nat)
      (sel : LinkSelection), sel ∈ selectLoop blocks i0 rest used →
      ∃ j link, rest[j]? = some link ∧ sel.linkIndex = i0 + j ∧
        sel.finalAnchor = finalAnchorOf link ∧
        (link.position = .intro → ∃ b, introBlockOf blocks = some b ∧ sel.blockId = b.id) ∧
        (link.position = .conclusion →
          ∃ b, conclusionBlockOf blocks = some b ∧ sel.blockId = b.id) ∧
        (link.position = .body → sel.blockId ∈ bodyIds blocks) ∧
        (link.position = .any → sel.blockId ∈ anyIds blocks) := by
  intro rest
  induction rest with
  | nil =>
      intro i0 used sel h
      simp [selectLoop] at h
  | cons link rest' ih =>
      intro i0 used sel h
      simp only [selectLoop] at h
      cases hs : selectedFor blocks link.position used with
      | none =>
          rw [hs] at h
          obtain ⟨j, l, hj, hidx, ha, hi, hc, hb, hy⟩ := ih (i0 + 1) used sel h
          exact ⟨j + 1, l, by simpa using hj, by omega, ha, hi, hc, hb, hy⟩
      | some b =>
          rw [hs] at h
          rcases List.mem_cons.mp h with hhead | htail
          · subst hhead
            refine ⟨0, link, by simp, rfl, rfl, ?_, ?_, ?_, ?_⟩
            · intro hp
              rw [hp] at hs
              exact ⟨b, hs, rfl⟩
            · intro hp
              rw [hp] at hs
              exact ⟨b, hs, rfl⟩
            · intro hp
              rw [hp] at hs
              have hmem : b ∈ bodyBlocksOf blocks := List.mem_of_find?_eq_some hs
              exact List.mem_map_of_mem _ hmem
            · intro hp
              rw [hp] at hs
              rw [show selectedFor blocks .any used = (anyBlocksFor blocks used).head?
                from rfl, anyBlocksFor_head? blocks used] at hs
              have hmem : b ∈ anyBlocksOf blocks := List.mem_of_find?_eq_some hs
              exact List.mem_map_of_mem _ hmem
          · obtain ⟨j, l, hj, hidx, ha, hi, hc, hb, hy⟩ := ih (i0 + 1) _ sel htail
            exact ⟨j + 1, l, by simpa using hj, by omega, ha, hi, hc, hb, hy⟩

theorem selectLoop_complete (blocks : List LinkTarget) (pos1 : LinkPosition)
    (b : LinkTarget) (hsel : ∀ u, selectedFor blocks pos1 u = some b) :
    ∀ (rest : List InternalLink) (i0 : Nat) (used : List Nat) (j : Nat)
      (link : InternalLink), rest[j]? = some link → link.position = pos1 →
      (⟨i0 + j, b.id, finalAnchorOf link⟩ : LinkSelection) ∈
        selectLoop blocks i0 rest used := by
  intro rest
  induction rest with
  | nil =>
      intro i0 used j link hj
      simp at hj
  | cons l rest' ih =>
      intro i0 used j link hj hp
      cases j with
      | zero =>
          have hl : l = link := by
            rw [List.getElem?_cons_zero] at hj
            injection hj
          subst hl
          simp only [selectLoop]
          rw [hp, hsel used]
          exact List.mem_cons_self _ _
      | succ j' =>
          rw [List.getElem?_cons_succ] at hj
          simp only [selectLoop]
          cases hs : selectedFor blocks l.position used with
          | none =>
              have hmem := ih (i0 + 1) used j' link hj hp
              have e : i0 + 1 + j' = i0 + (j' + 1) := by omega
              rw [e] at hmem
              exact hmem
          | some bb =>
              refine List.mem_cons_of_mem _ ?_
              have hmem := ih (i0 + 1)
                (if l.position = .body ∨ l.position = .any then bb.id :: used else used)
                j' link hj hp
              have e : i0 + 1 + j' = i0 + (j' + 1) := by omega
              rw [e] at hmem
              exact hmem

theorem selectLoop_assigned_props (blocks : List LinkTarget)
    (links : List InternalLink) (pos0 : LinkPosition) (P : List LinkTarget)
    (hpos : pos0 = .body ∨ pos0 = .any)
    (hP : ∀ u, selectedFor blocks pos0 u = P.find? (fun t => !(u.contains t.id))) :
    ∀ (rest : List InternalLink) (i0 : Nat) (used : List Nat),
      (∀ j, rest[j]? = links[i0 + j]?) →
      List.Sublist (assignedIds links pos0 (selectLoop blocks i0 rest used))
          ((P.map (·.id)).filter (fun x => !(used.contains x))) ∧
      (∀ x ∈ assignedIds links pos0 (selectLoop blocks i0 rest used),
        used.contains x = false) ∧
      (assignedIds links pos0 (selectLoop blocks i0 rest used)).Nodup := by
  intro rest
  induction rest with
  | nil =>
      intro i0 used hrest
      refine ⟨?_, ?_, ?_⟩ <;> simp [selectLoop, assignedIds]
  | cons link rest' ih =>
      intro i0 used hrest
      have hrest' : ∀ j, rest'[j]? = links[i0 + 1 + j]? := by
        intro j
        have h := hrest (j + 1)
        rw [List.getElem?_cons_succ] at h
        have e : i0 + (j + 1) = i0 + 1 + j := by omega
        rw [e] at h
        exact h
      have hlink0 : links[i0]? = some link := by
        have h := hrest 0
        rw [Nat.add_zero, List.getElem?_cons_zero] at h
        exact h.symm
      simp only [selectLoop]
      cases hs : selectedFor blocks link.position used with
      | none => exact ih (i0 + 1) used hrest'
      | some b =>
          rw [assignedIds_cons]
          by_cases hpp : link.position = pos0
          · have hbp : link.position = .body ∨ link.position = .any := by
              rw [hpp]
              exact hpos
            rw [if_pos (by simp [hlink0, hpp]), if_pos hbp]
            have hfind : P.find? (fun t => !(used.contains t.id)) = some b := by
              rw [← hP used, ← hpp]
              exact hs
            obtain ⟨T, hT, hTsub⟩ := find?_unused_head P used b hfind
            have hfresh : used.contains b.id = false := by
              have h := List.find?_some hfind
              simpa using h
            have hIH := ih (i0 + 1) (b.id :: used) hrest'
            refine ⟨?_, ?_, ?_⟩
            · rw [hT]
              exact (hIH.1.trans hTsub).cons₂ b.id
            · intro x hx
              rcases List.mem_cons.mp hx with hx | hx
              · rw [hx]
                exact hfresh
              · exact contains_tail_false (hIH.2.1 x hx)
            · refine List.nodup_cons.mpr ⟨?_, hIH.2.2⟩
              intro hmem
              exact ne_of_contains_cons_false (hIH.2.1 b.id hmem) rfl
          · rw [if_neg (by simp [hlink0, hpp])]
            by_cases hbp : link.position = .body ∨ link.position = .any
            · rw [if_pos hbp]
              have hIH := ih (i0 + 1) (b.id :: used) hrest'
              refine ⟨?_, ?_, ?_⟩
              · refine hIH.1.trans (List.monotone_filter_right _ ?_)
                intro x hx
                simp only [Bool.not_eq_true'] at hx ⊢
                exact contains_tail_false hx
              · intro x hx
                exact contains_tail_false (hIH.2.1 x hx)
              · exact hIH.2.2
            · rw [if_neg hbp]
              exact ih (i0 + 1) used hrest'

/-- C5: link-block selection is a pure deterministic function of the
blocks and link list (the `language` argument is ignored, and there is no
LLM call): every produced assignment carries its link's final anchor,
which is the link's URL for anchorless links; every `intro` (resp.
`conclusion`) link is assigned to the single intro (resp. conclusion)
block whenever it exists, with multiple links per block allowed; `body`
links are assigned to pairwise-distinct h2/h3 blocks in list order; and
`any` links are assigned to pairwise-distinct non-h1/non-faq blocks in
list order. -/
theorem selectBlocksForLinks_spec (blocks : List LinkTarget)
    (links : List InternalLink) (language lang2 : String) :
    selectBlocksForLinks blocks links language =
      selectBlocksForLinks blocks links lang2 ∧
    (∀ sel ∈ selectBlocksForLinks blocks links language,
      ∃ link, links[sel.linkIndex]? = some link ∧
        sel.finalAnchor = finalAnchorOf link ∧
        (link.isAnchorless = true → sel.finalAnchor = link.url) ∧
        (link.position = .intro →
          ∃ b, introBlockOf blocks = some b ∧ sel.blockId = b.id) ∧
        (link.position = .conclusion →
          ∃ b, conclusionBlockOf blocks = some b ∧ sel.blockId = b.id) ∧
        (link.position = .body → sel.blockId ∈ bodyIds blocks) ∧
        (link.position = .any → sel.blockId ∈ anyIds blocks)) ∧
    (∀ b, introBlockOf blocks = some b → ∀ j link, links[j]? = some link →
      link.position = .intro →
      (⟨j, b.id, finalAnchorOf link⟩ : LinkSelection) ∈
        selectBlocksForLinks blocks links language) ∧
    (∀ b, conclusionBlockOf blocks = some b → ∀ j link, links[j]? = some link →
      link.position = .conclusion →
      (⟨j, b.id, finalAnchorOf link⟩ : LinkSelection) ∈
        selectBlocksForLinks blocks links language) ∧
    List.Sublist
      (assignedIds links .body (selectBlocksForLinks blocks links language))
      (bodyIds blocks) ∧
    (assignedIds links .body (selectBlocksForLinks blocks links language)).Nodup ∧
    List.Sublist
      (assignedIds links .any (selectBlocksForLinks blocks links language))
      (anyIds blocks) ∧
    (assignedIds links .any (selectBlocksForLinks blocks links language)).Nodup := by
  by_cases hempty : links.isEmpty
  · have hnil : links = [] := List.isEmpty_iff.mp hempty
    subst hnil
    refine ⟨rfl, ?_, ?_, ?_, ?_, ?_, ?_, ?_⟩ <;>
      simp [selectBlocksForLinks, assignedIds]
  · have hS : ∀ l2, selectBlocksForLinks blocks links l2 =
        selectLoop blocks 0 links [] := by
      intro l2
      unfold selectBlocksForLinks
      rw [if_neg hempty]
    have hrest0 : ∀ j, links[j]? = links[0 + j]? := by
      intro j
      rw [Nat.zero_add]
    have hbodyP := selectLoop_assigned_props blocks links .body (bodyBlocksOf blocks)
      (Or.inl rfl) (fun u => rfl) links 0 [] hrest0
    have hanyP := selectLoop_assigned_props blocks links .any (anyBlocksOf blocks)
      (Or.inr rfl) (fun u => anyBlocksFor_head? blocks u) links 0 [] hrest0
    have hfilterBody : ((bodyBlocksOf blocks).map (fun x => x.id)).filter
        (fun x => !(([] : List Nat).contains x)) = bodyIds blocks := by
      rw [List.filter_eq_self.mpr]
      · rfl
      · intro a ha
        rfl
    have hfilterAny : ((anyBlocksOf blocks).map (fun x => x.id)).filter
        (fun x => !(([] : List Nat).contains x)) = anyIds blocks := by
      rw [List.filter_eq_self.mpr]
      · rfl
      · intro a ha
        rfl
    refine ⟨by rw [hS language, hS lang2], ?_, ?_, ?_, ?_, ?_, ?_, ?_⟩
    · intro sel hsel
      rw [hS language] at hsel
      obtain ⟨j, link, hj, hidx, ha, hi, hc, hb, hy⟩ :=
        selectLoop_sound blocks links 0 [] sel hsel
      rw [Nat.zero_add] at hidx
      refine ⟨link, by rw [hidx]; exact hj, ha, ?_, hi, hc, hb, hy⟩
      intro hal
      rw [ha]
      unfold finalAnchorOf
      rw [hal]
      rfl
    · intro b hb j link hj hp
      rw [hS language]
      have hmem := selectLoop_complete blocks .intro b
        (fun u => by rw [show selectedFor blocks .intro u = introBlockOf blocks
          from rfl, hb]) links 0 [] j link hj hp
      rw [Nat.zero_add] at hmem
      exact hmem
    · intro b hb j link hj hp
      rw [hS language]
      have hmem := selectLoop_complete blocks .conclusion b
        (fun u => by rw [show selectedFor blocks .conclusion u = conclusionBlockOf blocks
          from rfl, hb]) links 0 [] j link hj hp
      rw [Nat.zero_add] at hmem
      exact hmem
    · rw [hS language]
      exact hfilterBody ▸ hbodyP.1
    · rw [hS language]
      exact hbodyP.2.2
    · rw [hS language]
      exact hfilterAny ▸ hanyP.1
    · rw [hS language]
      exact hanyP.2.2

/-- Concrete blocks used to witness the selection theorem. -/
def demoBlocks : List LinkTarget :=
  [⟨0, .h1, "T", some "t"⟩, ⟨1, .intro, "", some "i"⟩,
   ⟨2, .h2, "A", some "ca"⟩, ⟨3, .h3, "B", some "cb"⟩,
   ⟨4, .conclusion, "C", some "cc"⟩]

/-- Concrete links used to witness the selection theorem. -/
def demoLinks : List InternalLink :=
  [⟨"https://a", none, true, .inline, .intro⟩,
   ⟨"https://b", some "x", false, .inline, .body⟩]

/-- Closed witness for the selection theorem: on the demo article the
anchorless intro link lands on the intro block with its URL as anchor, and
the body-position assignments are distinct h2/h3 blocks in order. -/
theorem selectBlocksForLinks_spec_witness :
    (⟨0, 1, "https://a"⟩ : LinkSelection) ∈
      selectBlocksForLinks demoBlocks demoLinks "en" ∧
    List.Sublist
      (assignedIds demoLinks .body (selectBlocksForLinks demoBlocks demoLinks "en"))
      (bodyIds demoBlocks) :=
  ⟨(selectBlocksForLinks_spec demoBlocks demoLinks "en" "en").2.2.1
      ⟨1, .intro, "", some "i"⟩ (by decide) 0 ⟨"https://a", none, true, .inline, .intro⟩
      (by decide) rfl,
   (selectBlocksForLinks_spec demoBlocks demoLinks "en" "en").2.2.2.2.1⟩

end OpenRouterService

/-!
Supabase question answering (`services/SupabaseService.ts`) and the
stage-4 block update of the generation queue.
-/

namespace SupabaseService

/-- A vector-search hit: document content, optional source URL from the
metadata, and the similarity score. -/
structure MatchResult where
  content : String
  url : Option String
  similarity : ℚ
deriving DecidableEq, Repr

/-- Model of `findAnswer`: the oracle `lookup` stands for embedding
generation plus `match_documents` search, returning the best hit at or
above the similarity threshold or `none` — also `none` on any provider
error, which `findAnswer` swallows (its `catch` returns `null`).  On a hit
the answer tuple echoes the input question verbatim, trims the content and
truncates it to 1000 characters; a falsy (absent or empty) metadata URL
becomes no source. -/
def findAnswer (lookup : String → Option MatchResult) (question : String) :
    Option AnsweredQuestion :=
  match lookup question with
  | none => none
  | some m =>
      let answer := m.content.trim
      let answer := if answer.length > 1000 then answer.take 1000 ++ "..." else answer
      some { question := question, answer := answer,
             source := match m.url with
               | none => none
               | some u => if u = "" then none else some u,
             similarity := m.similarity }

theorem findAnswer_question (lookup : String → Option MatchResult)
    (q : String) (a : AnsweredQuestion) (h : findAnswer lookup q = some a) :
    a.question = q := by
  unfold findAnswer at h
  cases hm : lookup q with
  | none => rw [hm] at h; exact absurd h (by simp)
  | some m =>
      rw [hm] at h
      simp only [Option.some.injEq] at h
      rw [← h]

end SupabaseService

namespace GenerationQueue

/-- The list behind an optional `questions` array (`undefined` reads as no
questions). -/
def qList : Option (List String) → List String
  | none => []
  | some l => l

/-- The question texts of an optional `answeredQuestions` array. -/
def qTexts : Option (List AnsweredQuestion) → List String
  | none => []
  | some l => l.map (·.question)

/-- Stage-4 update of one block (`generationQueue.ts` answering loop): a
block without questions is kept as is; otherwise the questions are looked
up in order, the answered ones collected, and a fresh plain block is built
whose `questions` keep only the answered texts and whose
`answeredQuestions` carry the full tuples (both `undefined` when no answer
was found; the rebuilt block carries no `content` field). -/
def answerQuestionsBlock (lookup : String → Option SupabaseService.MatchResult)
    (blockData : ArticleBlock) : ArticleBlock :=
  match blockData.questions with
  | none => blockData
  | some [] => blockData
  | some qs =>
      let answeredQuestions := qs.filterMap (SupabaseService.findAnswer lookup)
      { id := blockData.id
        type := blockData.type
        heading := blockData.heading
        instruction := blockData.instruction
        lsi := blockData.lsi
        questions := if answeredQuestions.length > 0
          then some (answeredQuestions.map (·.question)) else none
        answeredQuestions := if answeredQuestions.length > 0
          then some (answeredQuestions.map (fun aq =>
            { question := aq.question, answer := aq.answer,
              source := aq.source, similarity := aq.similarity })) else none
        content := none }

/-- Stage-4 update of the whole block list. -/
def answerQuestionsStage (lookup : String → Option SupabaseService.MatchResult)
    (blocks : List ArticleBlock) : List ArticleBlock :=
  blocks.map (answerQuestionsBlock lookup)

theorem filterMap_question_texts (lookup : String → Option SupabaseService.MatchResult)
    (qs : List String) :
    (qs.filterMap (SupabaseService.findAnswer lookup)).map (·.question) =
      qs.filter (fun q => (SupabaseService.findAnswer lookup q).isSome) := by
  induction qs with
  | nil => rfl
  | cons q rest ih =>
      rw [List.filterMap_cons, List.filter_cons]
      cases h : SupabaseService.findAnswer lookup q with
      | none => rw [if_neg (by simp [h])]; exact ih
      | some a =>
          rw [if_pos (by simp [h]), List.map_cons, ih,
            SupabaseService.findAnswer_question lookup q a h]

/-- C4: after stage 4, every block that had research questions has its
`answeredQuestions` texts equal to exactly the sub-list of its pre-stage
questions that received answers (hence a subset by text, in order), and
its post-stage `questions` list equal to exactly those answered texts;
blocks without questions are kept unchanged, and the stage maps each block
independently. -/
theorem answerQuestionsStage_spec (lookup : String → Option SupabaseService.MatchResult)
    (blocks : List ArticleBlock) (b : ArticleBlock) (hb : b ∈ blocks) :
    (qList b.questions ≠ [] →
      (qTexts ((answerQuestionsBlock lookup b).answeredQuestions) =
        (qList b.questions).filter
          (fun q => (SupabaseService.findAnswer lookup q).isSome)) ∧
      List.Sublist (qTexts ((answerQuestionsBlock lookup b).answeredQuestions))
        (qList b.questions) ∧
      (qList ((answerQuestionsBlock lookup b).questions) =
        qTexts ((answerQuestionsBlock lookup b).answeredQuestions))) ∧
    (qList b.questions = [] → answerQuestionsBlock lookup b = b) ∧
    answerQuestionsStage lookup blocks = blocks.map (answerQuestionsBlock lookup) := by
  refine ⟨?_, ?_, rfl⟩
  · intro hne
    rcases hq : b.questions with _ | ⟨_ | ⟨q0, qrest⟩⟩
    · rw [hq] at hne
      exact absurd rfl hne
    · rw [hq] at hne
      exact absurd rfl hne
    · have hstep : answerQuestionsBlock lookup b =
          { id := b.id, type := b.type, heading := b.heading,
            instruction := b.instruction, lsi := b.lsi,
            questions :=
              if ((q0 :: qrest).filterMap (SupabaseService.findAnswer lookup)).length > 0
              then some (((q0 :: qrest).filterMap
                (SupabaseService.findAnswer lookup)).map (·.question)) else none,
            answeredQuestions :=
              if ((q0 :: qrest).filterMap (SupabaseService.findAnswer lookup)).length > 0
              then some (((q0 :: qrest).filterMap
                (SupabaseService.findAnswer lookup)).map (fun aq =>
                  { question := aq.question, answer := aq.answer,
                    source := aq.source, similarity := aq.similarity })) else none,
            content := none } := by
        unfold answerQuestionsBlock
        rw [hq]
      have hq2 : qList b.questions = q0 :: qrest := by
        rw [hq]
        rfl
      have hcopy : ∀ l : List AnsweredQuestion,
          (l.map (fun aq => (⟨aq.question, aq.answer, aq.source, aq.similarity⟩ :
            AnsweredQuestion))).map (·.question) = l.map (·.question) := by
        intro l
        rw [List.map_map]
        rfl
      by_cases hlen :
          ((q0 :: qrest).filterMap (SupabaseService.findAnswer lookup)).length > 0
      · have h1 : qTexts ((answerQuestionsBlock lookup b).answeredQuestions) =
            (q0 :: qrest).filter
              (fun q => (SupabaseService.findAnswer lookup q).isSome) := by
          rw [hstep]
          simp only [if_pos hlen, qTexts]
          rw [hcopy, filterMap_question_texts]
        have h3 : qList ((answerQuestionsBlock lookup b).questions) =
            qTexts ((answerQuestionsBlock lookup b).answeredQuestions) := by
          rw [hstep]
          simp only [if_pos hlen, qTexts, qList]
          rw [hcopy]
        refine ⟨h1, ?_, h3⟩
        rw [h1]
        exact List.filter_sublist _
      · have hnil : (q0 :: qrest).filterMap (SupabaseService.findAnswer lookup) = [] := by
          cases hfm : (q0 :: qrest).filterMap (SupabaseService.findAnswer lookup) with
          | nil => rfl
          | cons x xs =>
              rw [hfm] at hlen
              simp at hlen
        have h1 : qTexts ((answerQuestionsBlock lookup b).answeredQuestions) =
            (q0 :: qrest).filter
              (fun q => (SupabaseService.findAnswer lookup q).isSome) := by
          rw [hstep]
          simp only [if_neg hlen, qTexts]
          have hf := filterMap_question_texts lookup (q0 :: qrest)
          rw [hnil] at hf
          exact hf
        have h3 : qList ((answerQuestionsBlock lookup b).questions) =
            qTexts ((answerQuestionsBlock lookup b).answeredQuestions) := by
          rw [hstep]
          simp only [if_neg hlen, qTexts, qList]
        refine ⟨h1, ?_, h3⟩
        rw [h1]
        exact List.filter_sublist _
  · intro h0
    rcases hq : b.questions with _ | ⟨_ | ⟨q0, qrest⟩⟩
    · unfold answerQuestionsBlock
      rw [hq]
    · unfold answerQuestionsBlock
      rw [hq]
    · rw [hq] at h0
      exact absurd h0 (by simp [qList])

/-- Concrete lookup oracle used to witness the stage-4 theorem. -/
def demoLookup : String → Option SupabaseService.MatchResult :=
  fun q => if q = "q1" then some ⟨"the answer", some "https://s", (9 : ℚ) / 10⟩ else none

/-- Concrete block used to witness the stage-4 theorem. -/
def demoAnswerBlock : ArticleBlock :=
  ⟨2, .h2, "H", "inst", ["k"], some ["q1", "q2"], none, none⟩

/-- Closed witness for the stage-4 theorem. -/
theorem answerQuestionsStage_spec_witness :
    (qTexts ((answerQuestionsBlock demoLookup demoAnswerBlock).answeredQuestions) =
      (qList demoAnswerBlock.questions).filter
        (fun q => (SupabaseService.findAnswer demoLookup q).isSome)) ∧
    List.Sublist (qTexts ((answerQuestionsBlock demoLookup demoAnswerBlock).answeredQuestions))
      (qList demoAnswerBlock.questions) ∧
    (qList ((answerQuestionsBlock demoLookup demoAnswerBlock).questions) =
      qTexts ((answerQuestionsBlock demoLookup demoAnswerBlock).answeredQuestions)) :=
  have h := (answerQuestionsStage_spec demoLookup [demoAnswerBlock] demoAnswerBlock
    (List.mem_singleton.mpr rfl)).1 (by decide)
  ⟨h.1, h.2.1, h.2.2⟩

end GenerationQueue

namespace GenerationQueue

/-!
The stage runner (`startQueueProcessor` in `queues/generationQueue.ts`).

One worker invocation is modelled as a pure function of the job document,
the presence of the user's API keys, the `continueFrom` pause state, and a
`RunEnv` of external-call outcomes.  Its result is the ordered list of
persisted status/progress writes and terminal marks (`RunEvent`) plus the
invocation outcome.  Log appends, block/article persists and socket log
events carry no status or progress and are not part of the event trace.
The runner body is split into one function per pipeline suffix
(`tailStructure` … `tailReview`), mirroring the linear stage sequence of
the source.
-/

/-- Generation statuses (`GenerationStatus`). -/
inductive GenStatus
  | queued
  | processing
  | parsingSerp
  | analyzingStructure
  | enrichingBlocks
  | answeringQuestions
  | writingArticle
  | insertingLinks
  | reviewingArticle
  | completed
  | failed
  | pausedAfterSerp
  | pausedAfterStructure
  | pausedAfterBlocks
  | pausedAfterAnswers
  | pausedAfterWriting
  | pausedAfterReview
deriving DecidableEq, Repr

/-- `skipSerp`: resume states whose runs skip stage 1. -/
def skipSerp (continueFrom : Option GenStatus) : Bool :=
  match continueFrom with
  | none => false
  | some s => [GenStatus.pausedAfterSerp, .pausedAfterStructure, .pausedAfterBlocks,
      .pausedAfterAnswers, .pausedAfterWriting, .pausedAfterReview].contains s

/-- `skipStructure`. -/
def skipStructure (continueFrom : Option GenStatus) : Bool :=
  match continueFrom with
  | none => false
  | some s => [GenStatus.pausedAfterStructure, .pausedAfterBlocks,
      .pausedAfterAnswers, .pausedAfterWriting, .pausedAfterReview].contains s

/-- `skipBlocks`. -/
def skipBlocks (continueFrom : Option GenStatus) : Bool :=
  match continueFrom with
  | none => false
  | some s => [GenStatus.pausedAfterBlocks, .pausedAfterAnswers,
      .pausedAfterWriting, .pausedAfterReview].contains s

/-- `skipAnswers`. -/
def skipAnswers (continueFrom : Option GenStatus) : Bool :=
  match continueFrom with
  | none => false
  | some s => [GenStatus.pausedAfterAnswers, .pausedAfterWriting,
      .pausedAfterReview].contains s

/-- `skipWriting`. -/
def skipWriting (continueFrom : Option GenStatus) : Bool :=
  match continueFrom with
  | none => false
  | some s => [GenStatus.pausedAfterWriting, .pausedAfterReview].contains s

/-- `skipReview`. -/
def skipReview (continueFrom : Option GenStatus) : Bool :=
  continueFrom == some .pausedAfterReview

/-- One parsed SERP entry (only the fields the runner reads). -/
structure SerpEntry where
  wordCount : Option Nat
  error : Option String
deriving DecidableEq, Repr

/-- One review finding (`{blockId, issues, suggestion}`). -/
structure ReviewIssue where
  blockId : Nat
  issues : List String
  suggestion : String
deriving DecidableEq, Repr

/-- Outcomes of the external calls made during one invocation.
`serp` is `fetchSerpResults`; `structureResp` is `analyzeStructures`
(already `Except` for provider and parse errors, which that service
rethrows wrapped); `enrichResp` is the parsed enrichment response (the
service itself falls back to the original blocks on error);
`supabaseConnected` is `testConnection`; `lookup` drives `findAnswer`
(which swallows its own errors); `writeBlock i` is `generateBlockContent`
for the i-th block (throws on provider error); `reviewResp` is the review
chat outcome (`reviewArticleQuality` swallows errors and returns `[]`). -/
structure RunEnv where
  serp : Except String (List SerpEntry)
  structureResp : Except String StructureAnalysis
  enrichResp : Except String (List ArticleBlock)
  supabaseConnected : Bool
  lookup : String → Option SupabaseService.MatchResult
  writeBlock : Nat → Except String String
  reviewResp : Except String (List ReviewIssue)

/-- Presence of the user's decrypted API keys. -/
structure ApiKeysPresent where
  openRouter : Bool
  firecrawl : Bool
  supabase : Bool
deriving DecidableEq, Repr

/-- The job configuration fields the runner reads. -/
structure GenConfig where
  continuousMode : Bool
  internalLinks : List OpenRouterService.InternalLink
deriving DecidableEq, Repr

/-- The generation document fields the runner reads. -/
structure GenerationDoc where
  config : GenConfig
  articleBlocks : List ArticleBlock
deriving DecidableEq, Repr

/-- A persisted write or terminal emission of one invocation:
`prog` is `updateProgress` (status and progress together), `statusOnly` is
the status-only write of the stage-7 pause, `failMark` is the
status=failed write of the outer catch, `completeMark` sets
`currentStep`/`completedAt`, `emitCompleted` is the completion socket
event. -/
inductive RunEvent
  | prog (status : GenStatus) (progress : Nat)
  | statusOnly (status : GenStatus)
  | failMark (msg : String)
  | completeMark
  | emitCompleted
deriving DecidableEq, Repr

/-- Result of one worker invocation. -/
inductive RunOutcome
  | paused (tag : String)
  | completed
  | failed (msg : String)
deriving DecidableEq, Repr

/-- Control flow of one stage: throw, early pause return, or continue. -/
inductive Flow (α : Type)
  | err (msg : String)
  | pauseAt (tag : String)
  | go (val : α)

/-- `Math.round(num / den)` for nonnegative rationals (round half up). -/
def jsRound (num den : Nat) : Nat := (2 * num + den) / (2 * den)

/-- Per-entry progress updates of the SERP callback:
`Math.round(10 + (index + 1) * 4)`. -/
def serpProgressEvents (n : Nat) : List RunEvent :=
  (List.range n).map (fun i => .prog .parsingSerp (10 + (i + 1) * 4))

/-- Stage 1 — SERP ingestion. -/
def stageSerp (env : RunEnv) (keys : ApiKeysPresent) (continuousMode : Bool) :
    List RunEvent × Flow Unit :=
  if !keys.firecrawl then ([], .err "Firecrawl API key not configured")
  else
    let pre : List RunEvent := [.prog .processing 5, .prog .parsingSerp 10]
    match env.serp with
    | .error e => (pre, .err e)
    | .ok results =>
        let ev := pre ++ serpProgressEvents results.length
        if !continuousMode then
          (ev ++ [.prog .pausedAfterSerp 50], .pauseAt "serp")
        else (ev, .go ())

/-- Stage 2 — structure analysis. -/
def stageStructure (env : RunEnv) (keys : ApiKeysPresent) (continuousMode : Bool) :
    List RunEvent × Flow (List ArticleBlock) :=
  if !keys.openRouter then ([], .err "OpenRouter API key not configured")
  else
    match env.structureResp with
    | .error e => ([.prog .analyzingStructure 55], .err e)
    | .ok analysis =>
        let ev : List RunEvent :=
          [.prog .analyzingStructure 55, .prog .analyzingStructure 65]
        if !continuousMode then
          (ev ++ [.prog .pausedAfterStructure 70], .pauseAt "structure")
        else (ev, .go analysis.recommendedStructure)

/-- Stage 3 — block enrichment (the enrichment service itself returns the
original blocks on any provider or parse error). -/
def stageBlocks (env : RunEnv) (keys : ApiKeysPresent) (continuousMode : Bool)
    (blocks : List ArticleBlock) : List RunEvent × Flow (List ArticleBlock) :=
  if !keys.openRouter then ([], .err "OpenRouter API key not configured")
  else
    let pre : List RunEvent := [.prog .enrichingBlocks 75]
    if blocks.isEmpty then (pre, .err "No article blocks found for enrichment")
    else
      let enriched := OpenRouterService.enrichBlockInstructions blocks env.enrichResp
      let ev := pre ++ [RunEvent.prog .enrichingBlocks 85]
      if !continuousMode then
        (ev ++ [.prog .pausedAfterBlocks 88], .pauseAt "blocks")
      else (ev, .go enriched)

/-- Total research questions over all blocks. -/
def totalQuestionsOf (blocks : List ArticleBlock) : Nat :=
  blocks.foldl (fun acc b => acc + (qList b.questions).length) 0

/-- Stage-4 progress after one processed question:
`Math.min(Math.round(90 + (answeredCount / totalQuestions) * 5), 95)`. -/
def answerProgress (tq ac : Nat) : Nat :=
  min (jsRound (90 * tq + 5 * ac) tq) 95

/-- The per-question progress updates of one block, threading the running
answered count. -/
def answerEventsBlock (lookup : String → Option SupabaseService.MatchResult)
    (tq : Nat) : List String → Nat → List RunEvent × Nat
  | [], ac => ([], ac)
  | q :: rest, ac =>
      let ac2 := if (SupabaseService.findAnswer lookup q).isSome then ac + 1 else ac
      let r := answerEventsBlock lookup tq rest ac2
      (.prog .answeringQuestions (answerProgress tq ac2) :: r.1, r.2)

/-- The per-question progress updates of all blocks. -/
def answerEventsBlocks (lookup : String → Option SupabaseService.MatchResult)
    (tq : Nat) : List ArticleBlock → Nat → List RunEvent
  | [], _ => []
  | b :: rest, ac =>
      let r := answerEventsBlock lookup tq (qList b.questions) ac
      r.1 ++ answerEventsBlocks lookup tq rest r.2

/-- Stage 4 — question answering. -/
def stageAnswers (env : RunEnv) (keys : ApiKeysPresent) (continuousMode : Bool)
    (blocks : List ArticleBlock) : List RunEvent × Flow (List ArticleBlock) :=
  if !keys.supabase then ([], .err "Supabase credentials not configured")
  else if !keys.openRouter then
    ([], .err "OpenRouter API key not configured (required for embeddings)")
  else
    let pre : List RunEvent := [.prog .answeringQuestions 90]
    if blocks.isEmpty then
      (pre, .err "No article blocks found for question answering")
    else if !env.supabaseConnected then (pre, .err "Failed to connect to Supabase")
    else
      let tq := totalQuestionsOf blocks
      let ev := pre ++ answerEventsBlocks env.lookup tq blocks 0
      let updated := answerQuestionsStage env.lookup blocks
      if !continuousMode then
        (ev ++ [.prog .pausedAfterAnswers 96], .pauseAt "answers")
      else (ev, .go updated)

/-- Writing-loop progress for block `i` of `tb`:
`Math.round(97 + (i / totalBlocks) * 2)`. -/
def writeProgress (tb i : Nat) : Nat := jsRound (97 * tb + 2 * i) tb

/-- The writing loop over the remaining block count: the progress update
precedes each model call; a provider error aborts right after it. -/
def writeLoop (env : RunEnv) (tb : Nat) : Nat → Nat → List RunEvent × Option String
  | 0, _ => ([], none)
  | remaining + 1, i =>
      match env.writeBlock i with
      | .error e => ([.prog .writingArticle (writeProgress tb i)], some e)
      | .ok _ =>
          let r := writeLoop env tb remaining (i + 1)
          (.prog .writingArticle (writeProgress tb i) :: r.1, r.2)

/-- The blocks with their generated content filled in (only reached when
every write succeeded). -/
def writeContents (env : RunEnv) (blocks : List ArticleBlock) : List ArticleBlock :=
  OpenRouterService.mapWithIndex (fun i b =>
    { b with content := match env.writeBlock i with
        | .ok c => some c
        | .error _ => b.content }) 0 blocks

/-- Stage 5 — article writing.  The pause point persists
`(paused_after_writing, 97)` after the loop. -/
def stageWriting (env : RunEnv) (keys : ApiKeysPresent) (continuousMode : Bool)
    (blocks : List ArticleBlock) : List RunEvent × Flow (List ArticleBlock) :=
  if !keys.openRouter then ([], .err "OpenRouter API key not configured")
  else
    let pre : List RunEvent := [.prog .writingArticle 97]
    if blocks.isEmpty then (pre, .err "No article blocks found for writing")
    else
      let tb := blocks.length
      let r := writeLoop env tb tb 0
      match r.2 with
      | some e => (pre ++ r.1, .err e)
      | none =>
          if !continuousMode then
            (pre ++ r.1 ++ [.prog .pausedAfterWriting 97], .pauseAt "writing")
          else (pre ++ r.1, .go (writeContents env blocks))

/-- Stage 6 — link insertion.  Not guarded by any skip flag; runs whenever
internal links are configured.  The insertion work persists only blocks
and article text (no status or progress writes) and every error inside it
is caught and logged, so the stage contributes exactly one progress
update when links exist and never alters control flow. -/
def stageLinks (gen : GenerationDoc) : List RunEvent :=
  if gen.config.internalLinks.length > 0 then [.prog .insertingLinks 99] else []

/-- Service-level outcome of `reviewArticleQuality`: provider and parse
errors are swallowed and yield no issues. -/
def reviewOutcome (resp : Except String (List ReviewIssue)) : List ReviewIssue :=
  match resp with
  | .ok issues => issues
  | .error _ => []

/-- Stage 7 — review & SEO.  The progress update precedes the credential
check (its throw is outside the stage try); every provider call inside
the stage swallows its own errors (`reviewArticleQuality` returns `[]`,
`fixBlockContent` returns the original content, `generateSeoMetadata`
falls back), so after the review the stage pauses with a status-only
write (non-continuous) or falls through to completion. -/
def stageReview (env : RunEnv) (keys : ApiKeysPresent) (continuousMode : Bool) :
    List RunEvent × Flow (List ReviewIssue) :=
  let pre : List RunEvent := [.prog .reviewingArticle 99]
  if !keys.openRouter then (pre, .err "OpenRouter API key not configured")
  else
    let issues := reviewOutcome env.reviewResp
    if !continuousMode then
      (pre ++ [.statusOnly .pausedAfterReview], .pauseAt "review")
    else (pre, .go issues)

/-- The completion writes: `(completed, 100)`, the
`currentStep`/`completedAt` update, and the completion socket event. -/
def completionEvents : List RunEvent :=
  [.prog .completed 100, .completeMark, .emitCompleted]

/-- Pipeline suffix from stage 7. -/
def tailReview (env : RunEnv) (keys : ApiKeysPresent) (gen : GenerationDoc)
    (continueFrom : Option GenStatus) : List RunEvent × RunOutcome :=
  let s7 := if skipReview continueFrom then ([], Flow.go [])
    else stageReview env keys gen.config.continuousMode
  match s7 with
  | (ev, .err m) => (ev ++ [.failMark m], .failed m)
  | (ev, .pauseAt t) => (ev, .paused t)
  | (ev, .go _) => (ev ++ completionEvents, .completed)

/-- Pipeline suffix from stage 6. -/
def tailLinks (env : RunEnv) (keys : ApiKeysPresent) (gen : GenerationDoc)
    (continueFrom : Option GenStatus) : List RunEvent × RunOutcome :=
  let ev6 := stageLinks gen
  let r := tailReview env keys gen continueFrom
  (ev6 ++ r.1, r.2)

/-- Pipeline suffix from stage 5. -/
def tailWriting (env : RunEnv) (keys : ApiKeysPresent) (gen : GenerationDoc)
    (continueFrom : Option GenStatus) (blocks : List ArticleBlock) :
    List RunEvent × RunOutcome :=
  let s5 := if skipWriting continueFrom then ([], Flow.go blocks)
    else stageWriting env keys gen.config.continuousMode blocks
  match s5 with
  | (ev, .err m) => (ev ++ [.failMark m], .failed m)
  | (ev, .pauseAt t) => (ev, .paused t)
  | (ev, .go _) =>
      let r := tailLinks env keys gen continueFrom
      (ev ++ r.1, r.2)

/-- Pipeline suffix from stage 4. -/
def tailAnswers (env : RunEnv) (keys : ApiKeysPresent) (gen : GenerationDoc)
    (continueFrom : Option GenStatus) (blocks : List ArticleBlock) :
    List RunEvent × RunOutcome :=
  let s4 := if skipAnswers continueFrom then ([], Flow.go blocks)
    else stageAnswers env keys gen.config.continuousMode blocks
  match s4 with
  | (ev, .err m) => (ev ++ [.failMark m], .failed m)
  | (ev, .pauseAt t) => (ev, .paused t)
  | (ev, .go blocks4) =>
      let r := tailWriting env keys gen continueFrom blocks4
      (ev ++ r.1, r.2)

/-- Pipeline suffix from stage 3. -/
def tailBlocks (env : RunEnv) (keys : ApiKeysPresent) (gen : GenerationDoc)
    (continueFrom : Option GenStatus) (blocks : List ArticleBlock) :
    List RunEvent × RunOutcome :=
  let s3 := if skipBlocks continueFrom then ([], Flow.go blocks)
    else stageBlocks env keys gen.config.continuousMode blocks
  match s3 with
  | (ev, .err m) => (ev ++ [.failMark m], .failed m)
  | (ev, .pauseAt t) => (ev, .paused t)
  | (ev, .go blocks3) =>
      let r := tailAnswers env keys gen continueFrom blocks3
      (ev ++ r.1, r.2)

/-- Pipeline suffix from stage 2. -/
def tailStructure (env : RunEnv) (keys : ApiKeysPresent) (gen : GenerationDoc)
    (continueFrom : Option GenStatus) : List RunEvent × RunOutcome :=
  let s2 := if skipStructure continueFrom then ([], Flow.go gen.articleBlocks)
    else stageStructure env keys gen.config.continuousMode
  match s2 with
  | (ev, .err m) => (ev ++ [.failMark m], .failed m)
  | (ev, .pauseAt t) => (ev, .paused t)
  | (ev, .go blocks2) =>
      let r := tailBlocks env keys gen continueFrom blocks2
      (ev ++ r.1, r.2)

/-- One worker invocation of the stage runner. -/
def processJob (env : RunEnv) (keys : ApiKeysPresent) (gen : GenerationDoc)
    (continueFrom : Option GenStatus) : List RunEvent × RunOutcome :=
  let s1 := if skipSerp continueFrom then ([], Flow.go ())
    else stageSerp env keys gen.config.continuousMode
  match s1 with
  | (ev, .err m) => (ev ++ [.failMark m], .failed m)
  | (ev, .pauseAt t) => (ev, .paused t)
  | (ev, .go _) =>
      let r := tailStructure env keys gen continueFrom
      (ev ++ r.1, r.2)

/-- The persisted `(status, progress)` pairs of a trace, in order. -/
def progressPairs (evs : List RunEvent) : List (GenStatus × Nat) :=
  evs.filterMap (fun e =>
    match e with
    | .prog s p => some (s, p)
    | _ => none)

/-- The persisted progress values of a trace, in order. -/
def progressValues (evs : List RunEvent) : List Nat :=
  (progressPairs evs).map (·.2)

end GenerationQueue

namespace GenerationQueue

/-- A concrete run environment for resumed-run evaluations. -/
def demoEnv : RunEnv where
  serp := .ok []
  structureResp := .error "unused"
  enrichResp := .error "unused"
  supabaseConnected := true
  lookup := fun _ => none
  writeBlock := fun _ => .ok "text"
  reviewResp := .ok []

/-- All three API keys present. -/
def demoKeys : ApiKeysPresent := ⟨true, true, true⟩

/-- A concrete internal-link descriptor. -/
def demoRunLink : OpenRouterService.InternalLink :=
  ⟨"https://example.com", some "anchor", false, .inline, .body⟩

/-- A job with one configured internal link (continuous mode off). -/
def demoGenLinked : GenerationDoc :=
  ⟨⟨false, [demoRunLink]⟩, [⟨0, .h1, "T", "", [], none, none, none⟩]⟩

/-- The same job with no internal links. -/
def demoGenNoLinks : GenerationDoc :=
  ⟨⟨false, []⟩, [⟨0, .h1, "T", "", [], none, none, none⟩]⟩

/-- C3: the claim is false — resuming a job from `paused_after_review`
with internal links configured does complete the job, but it re-runs
stage 6 first: the `inserting_links` progress write is persisted again,
contradicting "performing no further stage work, including no link
insertion even when internal-link descriptors exist". -/
theorem resume_after_review_claim_false :
    (processJob demoEnv demoKeys demoGenLinked (some .pausedAfterReview)).2 =
      .completed ∧
    RunEvent.prog .insertingLinks 99 ∈
      (processJob demoEnv demoKeys demoGenLinked (some .pausedAfterReview)).1 := by
  constructor
  · rfl
  · simp [processJob, tailStructure, tailBlocks, tailAnswers, tailWriting,
      tailLinks, tailReview, skipSerp, skipStructure, skipBlocks, skipAnswers,
      skipWriting, skipReview, stageLinks, demoGenLinked]

/-- C3 (amended): resuming from `paused_after_review` skips stages 1–5 and
stage 7 and always transitions the job to `completed`, with the completion
timestamp write and the completed event; when no internal links are
configured the trace is exactly the three completion writes, but when
links are configured stage 6 runs again and prepends its `inserting_links`
progress write. -/
theorem resume_after_review_amended (env : RunEnv) (keys : ApiKeysPresent)
    (gen : GenerationDoc) :
    processJob env keys gen (some .pausedAfterReview) =
      (stageLinks gen ++ completionEvents, .completed) ∧
    (gen.config.internalLinks = [] →
      processJob env keys gen (some .pausedAfterReview) =
        (completionEvents, .completed)) := by
  have h1 : processJob env keys gen (some .pausedAfterReview) =
      (stageLinks gen ++ completionEvents, .completed) := rfl
  refine ⟨h1, fun h => ?_⟩
  rw [h1]
  simp [stageLinks, h]

/-- Concrete instance of the amended C3 statement. -/
theorem resume_after_review_amended_witness :
    processJob demoEnv demoKeys demoGenNoLinks (some .pausedAfterReview) =
      (completionEvents, .completed) :=
  (resume_after_review_amended demoEnv demoKeys demoGenNoLinks).2 rfl

end GenerationQueue

namespace GenerationQueue

/-- The demo environment with a provider error in the review call. -/
def demoEnvReviewErr : RunEnv := { demoEnv with reviewResp := .error "OpenRouter 500" }

/-- The demo environment with a provider error in the SERP fetch. -/
def demoEnvSerpErr : RunEnv := { demoEnv with serp := .error "Firecrawl 500" }

/-- A continuous-mode job with no internal links. -/
def demoGenContinuous : GenerationDoc :=
  ⟨⟨true, []⟩, [⟨0, .h1, "T", "", [], none, none, none⟩]⟩

/-- C2: the claim is false for stage 7 — a provider-level error thrown
inside the review stage is caught by the stage's own catch block and the
runner proceeds to completion: the job ends `completed`, not `failed`. -/
theorem review_provider_error_claim_false :
    (processJob demoEnvReviewErr demoKeys demoGenContinuous
        (some .pausedAfterWriting)).2 = .completed ∧
    (processJob demoEnvReviewErr demoKeys demoGenContinuous
        (some .pausedAfterWriting)).2 ≠ .failed "OpenRouter 500" := by
  constructor
  · rfl
  · decide

/-- C2 (amended): with the stage's API key configured, a provider error
in stage 1 (SERP fetch), stage 2 (structure analysis) or stage 5 (block
writing) escapes the stage and the outer catch marks the job `failed`
with that error; stages 3 and 4 absorb provider errors at service level
(enrichment falls back to the original blocks, `findAnswer` returns no
answer), and a provider error in stage 7 never fails the run — the
invocation still ends `completed` (continuous mode) or paused after
review (non-continuous). -/
theorem provider_error_handling (env : RunEnv) (keys : ApiKeysPresent)
    (gen : GenerationDoc) (e : String)
    (hf : keys.firecrawl = true) (ho : keys.openRouter = true) :
    (env.serp = .error e → processJob env keys gen none =
        ([.prog .processing 5, .prog .parsingSerp 10, .failMark e], .failed e)) ∧
    (env.structureResp = .error e →
      processJob env keys gen (some .pausedAfterSerp) =
        ([.prog .analyzingStructure 55, .failMark e], .failed e)) ∧
    (∀ b bs, gen.articleBlocks = b :: bs → env.writeBlock 0 = .error e →
      processJob env keys gen (some .pausedAfterAnswers) =
        ([.prog .writingArticle 97,
          .prog .writingArticle (writeProgress (bs.length + 1) 0), .failMark e],
         .failed e)) ∧
    (env.reviewResp = .error e →
      (processJob env keys gen (some .pausedAfterWriting)).2 ≠ .failed e ∧
      (processJob env keys gen (some .pausedAfterWriting)).2 =
        (if gen.config.continuousMode then .completed else .paused "review")) := by
  refine ⟨fun hs => ?_, fun hs => ?_, fun b bs hb hw => ?_, fun _ => ?_⟩
  · simp [processJob, skipSerp, stageSerp, hf, hs]
  · simp [processJob, tailStructure, skipSerp, skipStructure, stageStructure,
      ho, hs]
  · simp [processJob, tailStructure, tailBlocks, tailAnswers, tailWriting,
      skipSerp, skipStructure, skipBlocks, skipAnswers, skipWriting,
      stageWriting, ho, hb, writeLoop, hw]
  · have hout : (processJob env keys gen (some .pausedAfterWriting)).2 =
        (if gen.config.continuousMode then .completed else .paused "review") := by
      by_cases hc : gen.config.continuousMode <;>
        simp [processJob, tailStructure, tailBlocks, tailAnswers, tailWriting,
          tailLinks, tailReview, skipSerp, skipStructure, skipBlocks,
          skipAnswers, skipWriting, skipReview, stageReview, ho, hc]
    refine ⟨?_, hout⟩
    rw [hout]
    by_cases hc : gen.config.continuousMode <;> simp [hc]

/-- Concrete instance of the amended C2 statement: a SERP provider error
on a fresh run fails the job with that error. -/
theorem provider_error_handling_witness :
    processJob demoEnvSerpErr demoKeys demoGenContinuous none =
      ([.prog .processing 5, .prog .parsingSerp 10, .failMark "Firecrawl 500"],
       .failed "Firecrawl 500") :=
  (provider_error_handling demoEnvSerpErr demoKeys demoGenContinuous
    "Firecrawl 500" rfl rfl).1 rfl

end GenerationQueue

namespace GenerationQueue

/-- The observed ordering between consecutive persisted progress writes:
the progress value never decreases, except at the single stage-5 pause
write `(paused_after_writing, 97)`, whose predecessors never exceed 99. -/
def progLe (a b : GenStatus × Nat) : Prop :=
  a.2 ≤ b.2 ∨ (b.1 = .pausedAfterWriting ∧ b.2 = 97 ∧ a.2 ≤ 99)

instance (a b : GenStatus × Nat) : Decidable (progLe a b) :=
  inferInstanceAs (Decidable (a.2 ≤ b.2 ∨ (b.1 = .pausedAfterWriting ∧ b.2 = 97 ∧ a.2 ≤ 99)))

instance : DecidableRel progLe := fun _ _ => inferInstance

/-- A progress-pair list that is `progLe`-chained with all values in
`[lo, hi]`. -/
def ChainIn (lo hi : Nat) (l : List (GenStatus × Nat)) : Prop :=
  List.Chain' progLe l ∧ ∀ x ∈ l, lo ≤ x.2 ∧ x.2 ≤ hi

/-- Executable check of `List.Chain' progLe`. -/
def chainB : List (GenStatus × Nat) → Bool
  | [] => true
  | [_] => true
  | a :: b :: rest => decide (progLe a b) && chainB (b :: rest)

lemma chainB_iff (l : List (GenStatus × Nat)) :
    chainB l = true ↔ List.Chain' progLe l := by
  induction l with
  | nil => simp [chainB]
  | cons a t ih =>
      cases t with
      | nil => simp [chainB]
      | cons b rest =>
          rw [List.chain'_cons]
          simp only [chainB, Bool.and_eq_true, decide_eq_true_eq]
          rw [ih]

instance (lo hi : Nat) (l : List (GenStatus × Nat)) : Decidable (ChainIn lo hi l) :=
  decidable_of_iff (chainB l = true ∧ ∀ x ∈ l, lo ≤ x.2 ∧ x.2 ≤ hi)
    (and_congr (chainB_iff l) Iff.rfl)

lemma chainIn_nil (lo hi : Nat) : ChainIn lo hi [] :=
  ⟨List.chain'_nil, by simp⟩

lemma ChainIn.mono {lo lo' hi hi' : Nat} {l : List (GenStatus × Nat)}
    (h : ChainIn lo hi l) (h1 : lo' ≤ lo) (h2 : hi ≤ hi') : ChainIn lo' hi' l :=
  ⟨h.1, fun x hx => ⟨le_trans h1 (h.2 x hx).1, le_trans (h.2 x hx).2 h2⟩⟩

lemma ChainIn.append {lo c hi : Nat} {l1 l2 : List (GenStatus × Nat)}
    (h1 : ChainIn lo c l1) (h2 : ChainIn c hi l2) (hl : lo ≤ c) (hc : c ≤ hi) :
    ChainIn lo hi (l1 ++ l2) := by
  refine ⟨?_, ?_⟩
  · rw [List.chain'_append]
    refine ⟨h1.1, h2.1, fun x hx y hy => ?_⟩
    exact Or.inl (le_trans (h1.2 x (List.mem_of_mem_getLast? hx)).2
      (h2.2 y (List.mem_of_mem_head? hy)).1)
  · intro x hx
    rcases List.mem_append.1 hx with h | h
    · exact ⟨(h1.2 x h).1, le_trans (h1.2 x h).2 hc⟩
    · exact ⟨le_trans hl (h2.2 x h).1, (h2.2 x h).2⟩

/-- Appending the stage-5 pause write keeps the chain: its predecessors
are bounded by 99 and the write itself is the allowed exception. -/
lemma ChainIn.writePause {l : List (GenStatus × Nat)} (h : ChainIn 97 99 l) :
    ChainIn 97 99 (l ++ [(GenStatus.pausedAfterWriting, 97)]) := by
  refine ⟨?_, ?_⟩
  · rw [List.chain'_append]
    refine ⟨h.1, List.chain'_singleton _, fun x hx y hy => ?_⟩
    have hy2 : y = (GenStatus.pausedAfterWriting, 97) := by
      have := hy
      simp at this
      exact this.symm
    subst hy2
    exact Or.inr ⟨rfl, rfl, le_trans (h.2 x (List.mem_of_mem_getLast? hx)).2 (by omega)⟩
  · intro x hx
    rcases List.mem_append.1 hx with hm | hm
    · exact h.2 x hm
    · simp at hm
      subst hm
      exact ⟨by omega, by omega⟩

@[simp] lemma progressPairs_nil : progressPairs [] = [] := rfl

@[simp] lemma progressPairs_cons_prog (s : GenStatus) (p : Nat) (l : List RunEvent) :
    progressPairs (.prog s p :: l) = (s, p) :: progressPairs l := rfl

@[simp] lemma progressPairs_cons_statusOnly (s : GenStatus) (l : List RunEvent) :
    progressPairs (.statusOnly s :: l) = progressPairs l := rfl

@[simp] lemma progressPairs_cons_failMark (m : String) (l : List RunEvent) :
    progressPairs (.failMark m :: l) = progressPairs l := rfl

@[simp] lemma progressPairs_cons_completeMark (l : List RunEvent) :
    progressPairs (.completeMark :: l) = progressPairs l := rfl

@[simp] lemma progressPairs_cons_emitCompleted (l : List RunEvent) :
    progressPairs (.emitCompleted :: l) = progressPairs l := rfl

@[simp] lemma progressPairs_append (l1 l2 : List RunEvent) :
    progressPairs (l1 ++ l2) = progressPairs l1 ++ progressPairs l2 := by
  simp [progressPairs]

lemma serpProgressEvents_pp (n : Nat) :
    progressPairs (serpProgressEvents n) =
      (List.range n).map (fun i => (GenStatus.parsingSerp, 10 + (i + 1) * 4)) := by
  induction n with
  | zero => rfl
  | succ k ih =>
      unfold serpProgressEvents at ih ⊢
      rw [List.range_succ, List.map_append, List.map_append, progressPairs_append, ih]
      rfl

lemma serpProgressEvents_chain (n : Nat) (hn : n ≤ 10) :
    ChainIn 10 50 (progressPairs (serpProgressEvents n)) := by
  rw [serpProgressEvents_pp]
  constructor
  · rw [List.chain'_map]
    match n with
    | 0 => simp
    | k + 1 =>
        rw [List.chain'_range_succ]
        intro m _
        exact Or.inl (by omega)
  · intro x hx
    simp only [List.mem_map, List.mem_range] at hx
    obtain ⟨i, hi, rfl⟩ := hx
    exact ⟨by omega, by omega⟩

lemma stageSerp_chain (env : RunEnv) (keys : ApiKeysPresent) (cont : Bool)
    (hserp : ∀ rs, env.serp = .ok rs → rs.length ≤ 10) :
    ChainIn 5 50 (progressPairs (stageSerp env keys cont).1) := by
  unfold stageSerp
  split
  · show ChainIn 5 50 (progressPairs [])
    decide
  · split
    next e heq =>
      show ChainIn 5 50 (progressPairs
        [RunEvent.prog .processing 5, RunEvent.prog .parsingSerp 10])
      decide
    next rs heq =>
      have h1 : ChainIn 5 10 (progressPairs
          [RunEvent.prog .processing 5, RunEvent.prog .parsingSerp 10]) := by decide
      have h2 := (serpProgressEvents_chain rs.length (hserp rs heq)).mono
        (le_refl 10) (le_refl 50)
      split
      · show ChainIn 5 50 (progressPairs
          (([RunEvent.prog .processing 5, RunEvent.prog .parsingSerp 10] ++
              serpProgressEvents rs.length) ++ [RunEvent.prog .pausedAfterSerp 50]))
        have h3 : ChainIn 50 50 (progressPairs [RunEvent.prog .pausedAfterSerp 50]) := by
          decide
        simp only [progressPairs_append]
        exact ChainIn.append
          (ChainIn.append h1 h2 (by omega) (by omega)) h3 (by omega) (by omega)
      · show ChainIn 5 50 (progressPairs
          ([RunEvent.prog .processing 5, RunEvent.prog .parsingSerp 10] ++
            serpProgressEvents rs.length))
        simp only [progressPairs_append]
        exact ChainIn.append h1 h2 (by omega) (by omega)

lemma stageStructure_chain (env : RunEnv) (keys : ApiKeysPresent) (cont : Bool) :
    ChainIn 55 70 (progressPairs (stageStructure env keys cont).1) := by
  unfold stageStructure
  split
  · show ChainIn 55 70 (progressPairs [])
    decide
  · split
    next e heq =>
      show ChainIn 55 70 (progressPairs [RunEvent.prog .analyzingStructure 55])
      decide
    next a heq =>
      split
      · show ChainIn 55 70 (progressPairs
          ([RunEvent.prog .analyzingStructure 55, RunEvent.prog .analyzingStructure 65] ++
           [RunEvent.prog .pausedAfterStructure 70]))
        decide
      · show ChainIn 55 70 (progressPairs
          [RunEvent.prog .analyzingStructure 55, RunEvent.prog .analyzingStructure 65])
        decide

lemma stageBlocks_chain (env : RunEnv) (keys : ApiKeysPresent) (cont : Bool)
    (blocks : List ArticleBlock) :
    ChainIn 75 88 (progressPairs (stageBlocks env keys cont blocks).1) := by
  unfold stageBlocks
  split
  · show ChainIn 75 88 (progressPairs [])
    decide
  · split
    · show ChainIn 75 88 (progressPairs [RunEvent.prog .enrichingBlocks 75])
      decide
    · split
      · show ChainIn 75 88 (progressPairs
          (([RunEvent.prog .enrichingBlocks 75] ++ [RunEvent.prog .enrichingBlocks 85]) ++
           [RunEvent.prog .pausedAfterBlocks 88]))
        decide
      · show ChainIn 75 88 (progressPairs
          ([RunEvent.prog .enrichingBlocks 75] ++ [RunEvent.prog .enrichingBlocks 85]))
        decide

end GenerationQueue

namespace GenerationQueue

lemma answerProgress_le_95 (tq ac : Nat) : answerProgress tq ac ≤ 95 :=
  min_le_right _ _

lemma answerProgress_mono (tq : Nat) {a b : Nat} (h : a ≤ b) :
    answerProgress tq a ≤ answerProgress tq b := by
  unfold answerProgress jsRound
  exact min_le_min (Nat.div_le_div_right (by omega)) (le_refl 95)

lemma answerProgress_ge_90 (tq ac : Nat) (htq : 1 ≤ tq) : 90 ≤ answerProgress tq ac := by
  unfold answerProgress jsRound
  refine le_min ?_ (by omega)
  rw [Nat.le_div_iff_mul_le (by omega : 0 < 2 * tq)]
  omega

lemma answerEventsBlock_chain (lookup : String → Option SupabaseService.MatchResult)
    (tq : Nat) (htq : 1 ≤ tq) :
    ∀ (qs : List String) (ac : Nat),
      ac ≤ (answerEventsBlock lookup tq qs ac).2 ∧
      ChainIn (answerProgress tq ac)
        (answerProgress tq (answerEventsBlock lookup tq qs ac).2)
        (progressPairs (answerEventsBlock lookup tq qs ac).1) := by
  intro qs
  induction qs with
  | nil =>
      intro ac
      exact ⟨le_refl ac, chainIn_nil _ _⟩
  | cons q rest ih =>
      intro ac
      simp only [answerEventsBlock]
      obtain ⟨h1, h2⟩ :=
        ih (if (SupabaseService.findAnswer lookup q).isSome then ac + 1 else ac)
      have hac : ac ≤ (if (SupabaseService.findAnswer lookup q).isSome
          then ac + 1 else ac) := by
        split <;> omega
      refine ⟨le_trans hac h1, ?_⟩
      rw [progressPairs_cons_prog, ← List.singleton_append]
      refine ChainIn.append ?_ h2 (answerProgress_mono tq hac)
        (answerProgress_mono tq h1)
      refine ⟨List.chain'_singleton _, ?_⟩
      intro x hx
      simp only [List.mem_singleton] at hx
      subst hx
      exact ⟨answerProgress_mono tq hac, le_refl _⟩

lemma answerEventsBlocks_chain (lookup : String → Option SupabaseService.MatchResult)
    (tq : Nat) (htq : 1 ≤ tq) :
    ∀ (blocks : List ArticleBlock) (ac : Nat),
      ChainIn (answerProgress tq ac) 95
        (progressPairs (answerEventsBlocks lookup tq blocks ac)) := by
  intro blocks
  induction blocks with
  | nil =>
      intro ac
      exact chainIn_nil _ _
  | cons b rest ih =>
      intro ac
      simp only [answerEventsBlocks]
      obtain ⟨h1, h2⟩ := answerEventsBlock_chain lookup tq htq (qList b.questions) ac
      rw [progressPairs_append]
      exact ChainIn.append h2
        (ih (answerEventsBlock lookup tq (qList b.questions) ac).2)
        (answerProgress_mono tq h1) (answerProgress_le_95 _ _)

lemma totalQuestions_aux (blocks : List ArticleBlock) :
    ∀ a, List.foldl (fun acc b => acc + (qList b.questions).length) a blocks = 0 →
      a = 0 ∧ ∀ b ∈ blocks, qList b.questions = [] := by
  induction blocks with
  | nil =>
      intro a h
      exact ⟨h, by simp⟩
  | cons b rest ih =>
      intro a h
      obtain ⟨h0, hall⟩ := ih (a + (qList b.questions).length) h
      refine ⟨by omega, ?_⟩
      intro c hc
      rcases List.mem_cons.1 hc with rfl | hm
      · exact List.length_eq_zero.1 (by omega)
      · exact hall c hm

lemma answerEventsBlocks_eq_nil (lookup : String → Option SupabaseService.MatchResult)
    (tq : Nat) :
    ∀ (blocks : List ArticleBlock) (ac : Nat),
      (∀ b ∈ blocks, qList b.questions = []) →
      answerEventsBlocks lookup tq blocks ac = [] := by
  intro blocks
  induction blocks with
  | nil => intro ac _; rfl
  | cons b rest ih =>
      intro ac h
      have hb : qList b.questions = [] := h b (by simp)
      simp only [answerEventsBlocks, hb]
      exact ih ac (fun c hc => h c (List.mem_cons_of_mem b hc))

lemma stageAnswers_chain (env : RunEnv) (keys : ApiKeysPresent) (cont : Bool)
    (blocks : List ArticleBlock) :
    ChainIn 90 96 (progressPairs (stageAnswers env keys cont blocks).1) := by
  unfold stageAnswers
  split
  · show ChainIn 90 96 (progressPairs [])
    decide
  · split
    · show ChainIn 90 96 (progressPairs [])
      decide
    · split
      · show ChainIn 90 96 (progressPairs [RunEvent.prog .answeringQuestions 90])
        decide
      · split
        · show ChainIn 90 96 (progressPairs [RunEvent.prog .answeringQuestions 90])
          decide
        · have hpre : ChainIn 90 90
              (progressPairs [RunEvent.prog .answeringQuestions 90]) := by decide
          by_cases htq : totalQuestionsOf blocks = 0
          · have hz : answerEventsBlocks env.lookup (totalQuestionsOf blocks) blocks 0
                = [] := by
              exact answerEventsBlocks_eq_nil env.lookup _ blocks 0
                (totalQuestions_aux blocks 0 htq).2
            split
            · show ChainIn 90 96 (progressPairs
                (([RunEvent.prog .answeringQuestions 90] ++
                  answerEventsBlocks env.lookup (totalQuestionsOf blocks) blocks 0) ++
                 [RunEvent.prog .pausedAfterAnswers 96]))
              rw [hz]
              decide
            · show ChainIn 90 96 (progressPairs
                ([RunEvent.prog .answeringQuestions 90] ++
                  answerEventsBlocks env.lookup (totalQuestionsOf blocks) blocks 0))
              rw [hz]
              decide
          · have htq1 : 1 ≤ totalQuestionsOf blocks := by omega
            have hch := ((answerEventsBlocks_chain env.lookup _ htq1 blocks 0).mono
              (answerProgress_ge_90 _ 0 htq1) (le_refl 95))
            split
            · show ChainIn 90 96 (progressPairs
                (([RunEvent.prog .answeringQuestions 90] ++
                  answerEventsBlocks env.lookup (totalQuestionsOf blocks) blocks 0) ++
                 [RunEvent.prog .pausedAfterAnswers 96]))
              have h3 : ChainIn 95 96
                  (progressPairs [RunEvent.prog .pausedAfterAnswers 96]) := by decide
              simp only [progressPairs_append]
              exact ChainIn.append
                (ChainIn.append hpre (hch.mono (by omega) (by omega))
                  (by omega) (by omega)) h3 (by omega) (by omega)
            · show ChainIn 90 96 (progressPairs
                ([RunEvent.prog .answeringQuestions 90] ++
                  answerEventsBlocks env.lookup (totalQuestionsOf blocks) blocks 0))
              simp only [progressPairs_append]
              exact ChainIn.append hpre
                (hch.mono (by omega) (by omega)) (by omega) (by omega)

end GenerationQueue

namespace GenerationQueue

lemma writeProgress_ge (tb i : Nat) (htb : 1 ≤ tb) : 97 ≤ writeProgress tb i := by
  unfold writeProgress jsRound
  rw [Nat.le_div_iff_mul_le (by omega : 0 < 2 * tb)]
  omega

lemma writeProgress_le (tb i : Nat) (htb : 1 ≤ tb) (hi : i ≤ tb) :
    writeProgress tb i ≤ 99 := by
  unfold writeProgress jsRound
  have h := (Nat.div_lt_iff_lt_mul (by omega : 0 < 2 * tb)).2
    (show 2 * (97 * tb + 2 * i) + tb < 100 * (2 * tb) by omega)
  omega

lemma writeProgress_mono (tb : Nat) {i j : Nat} (h : i ≤ j) :
    writeProgress tb i ≤ writeProgress tb j := by
  unfold writeProgress jsRound
  exact Nat.div_le_div_right (by omega)

lemma writeLoop_chain (env : RunEnv) (tb : Nat) (htb : 1 ≤ tb) :
    ∀ (remaining i : Nat), i + remaining ≤ tb →
      ChainIn (writeProgress tb i) 99
        (progressPairs (writeLoop env tb remaining i).1) := by
  intro remaining
  induction remaining with
  | zero =>
      intro i _
      exact chainIn_nil _ _
  | succ rem ih =>
      intro i hle
      simp only [writeLoop]
      split
      next e heq =>
        show ChainIn (writeProgress tb i) 99
          (progressPairs [RunEvent.prog .writingArticle (writeProgress tb i)])
        refine ⟨List.chain'_singleton _, ?_⟩
        intro x hx
        simp only [progressPairs_cons_prog, progressPairs_nil,
          List.mem_singleton] at hx
        subst hx
        exact ⟨le_refl _, writeProgress_le tb i htb (by omega)⟩
      next s heq =>
        show ChainIn (writeProgress tb i) 99
          (progressPairs (RunEvent.prog .writingArticle (writeProgress tb i) ::
            (writeLoop env tb rem (i + 1)).1))
        rw [progressPairs_cons_prog, ← List.singleton_append]
        refine ChainIn.append ?_ (ih (i + 1) (by omega))
          (writeProgress_mono tb (by omega))
          (writeProgress_le tb (i + 1) htb (by omega))
        refine ⟨List.chain'_singleton _, ?_⟩
        intro x hx
        simp only [List.mem_singleton] at hx
        subst hx
        exact ⟨le_refl _, writeProgress_mono tb (by omega)⟩

lemma stageWriting_chain (env : RunEnv) (keys : ApiKeysPresent) (cont : Bool)
    (blocks : List ArticleBlock) :
    ChainIn 97 99 (progressPairs (stageWriting env keys cont blocks).1) := by
  unfold stageWriting
  split
  · show ChainIn 97 99 (progressPairs [])
    decide
  · split
    · show ChainIn 97 99 (progressPairs [RunEvent.prog .writingArticle 97])
      decide
    next hne =>
      have htb : 1 ≤ blocks.length := by
        cases blocks with
        | nil => simp at hne
        | cons b bs => simp
      have hloop := ((writeLoop_chain env blocks.length htb blocks.length 0
        (by omega)).mono (writeProgress_ge blocks.length 0 htb) (le_refl 99))
      have hpre : ChainIn 97 97
          (progressPairs [RunEvent.prog .writingArticle 97]) := by decide
      have hcomb : ChainIn 97 99 (progressPairs
          ([RunEvent.prog .writingArticle 97] ++
            (writeLoop env blocks.length blocks.length 0).1)) := by
        simp only [progressPairs_append]
        exact ChainIn.append hpre hloop (by omega) (by omega)
      have key : ∀ (o : Option String), ChainIn 97 99 (progressPairs
          (@Prod.fst (List RunEvent) (Flow (List ArticleBlock))
            (match o with
            | some e => ([RunEvent.prog GenStatus.writingArticle 97] ++
                (writeLoop env blocks.length blocks.length 0).1, Flow.err e)
            | none =>
                if (!cont) = true then
                  ([RunEvent.prog GenStatus.writingArticle 97] ++
                    (writeLoop env blocks.length blocks.length 0).1 ++
                    [RunEvent.prog GenStatus.pausedAfterWriting 97],
                   Flow.pauseAt "writing")
                else
                  ([RunEvent.prog GenStatus.writingArticle 97] ++
                    (writeLoop env blocks.length blocks.length 0).1,
                   Flow.go (writeContents env blocks))))) := by
        intro o
        cases o with
        | some e => exact hcomb
        | none =>
            show ChainIn 97 99 (progressPairs
              (@Prod.fst (List RunEvent) (Flow (List ArticleBlock))
                (if (!cont) = true then
                  ([RunEvent.prog GenStatus.writingArticle 97] ++
                    (writeLoop env blocks.length blocks.length 0).1 ++
                    [RunEvent.prog GenStatus.pausedAfterWriting 97],
                   Flow.pauseAt "writing")
                 else
                  ([RunEvent.prog GenStatus.writingArticle 97] ++
                    (writeLoop env blocks.length blocks.length 0).1,
                   Flow.go (writeContents env blocks)))))
            split
            · have hpause := hcomb.writePause
              rw [progressPairs_append] at hpause
              show ChainIn 97 99 (progressPairs
                ([RunEvent.prog GenStatus.writingArticle 97] ++
                  (writeLoop env blocks.length blocks.length 0).1 ++
                  [RunEvent.prog GenStatus.pausedAfterWriting 97]))
              rw [progressPairs_append, progressPairs_append]
              rw [progressPairs_append] at hcomb
              exact hpause
            · exact hcomb
      exact key (writeLoop env blocks.length blocks.length 0).2

lemma stageLinks_chain (gen : GenerationDoc) :
    ChainIn 99 99 (progressPairs (stageLinks gen)) := by
  unfold stageLinks
  split
  · decide
  · decide

lemma stageReview_chain (env : RunEnv) (keys : ApiKeysPresent) (cont : Bool) :
    ChainIn 99 99 (progressPairs (stageReview env keys cont).1) := by
  unfold stageReview
  split
  · show ChainIn 99 99 (progressPairs [RunEvent.prog .reviewingArticle 99])
    decide
  · split
    · show ChainIn 99 99 (progressPairs
        ([RunEvent.prog .reviewingArticle 99] ++ [RunEvent.statusOnly .pausedAfterReview]))
      decide
    · show ChainIn 99 99 (progressPairs [RunEvent.prog .reviewingArticle 99])
      decide

lemma completionEvents_chain : ChainIn 100 100 (progressPairs completionEvents) := by
  decide

end GenerationQueue

namespace GenerationQueue

lemma tailReview_chain (env : RunEnv) (keys : ApiKeysPresent) (gen : GenerationDoc)
    (cf : Option GenStatus) :
    ChainIn 99 100 (progressPairs (tailReview env keys gen cf).1) := by
  unfold tailReview
  have key : ∀ (s : List RunEvent × Flow (List ReviewIssue)),
      ChainIn 99 99 (progressPairs s.1) →
      ChainIn 99 100 (progressPairs
        (@Prod.fst (List RunEvent) RunOutcome
          (match s with
          | (ev, .err m) => (ev ++ [.failMark m], .failed m)
          | (ev, .pauseAt t) => (ev, .paused t)
          | (ev, .go _) => (ev ++ completionEvents, .completed)))) := by
    intro s hs
    rcases s with ⟨ev, fl⟩
    cases fl with
    | err m =>
        show ChainIn 99 100 (progressPairs (ev ++ [RunEvent.failMark m]))
        rw [progressPairs_append]
        simpa using hs.mono (le_refl 99) (by omega)
    | pauseAt t => exact hs.mono (le_refl 99) (by omega)
    | go l =>
        show ChainIn 99 100 (progressPairs (ev ++ completionEvents))
        rw [progressPairs_append]
        exact ChainIn.append hs (completionEvents_chain.mono (by omega) (le_refl 100))
          (by omega) (by omega)
  refine key _ ?_
  cases hsk : skipReview cf
  · simpa [hsk] using stageReview_chain env keys gen.config.continuousMode
  · simp only [hsk, if_true]
    exact chainIn_nil _ _

lemma tailLinks_chain (env : RunEnv) (keys : ApiKeysPresent) (gen : GenerationDoc)
    (cf : Option GenStatus) :
    ChainIn 99 100 (progressPairs (tailLinks env keys gen cf).1) := by
  unfold tailLinks
  show ChainIn 99 100 (progressPairs (stageLinks gen ++ (tailReview env keys gen cf).1))
  rw [progressPairs_append]
  exact ChainIn.append (stageLinks_chain gen) (tailReview_chain env keys gen cf)
    (by omega) (by omega)

lemma tailWriting_chain (env : RunEnv) (keys : ApiKeysPresent) (gen : GenerationDoc)
    (cf : Option GenStatus) (blocks : List ArticleBlock) :
    ChainIn 97 100 (progressPairs (tailWriting env keys gen cf blocks).1) := by
  unfold tailWriting
  have key : ∀ (s : List RunEvent × Flow (List ArticleBlock)),
      ChainIn 97 99 (progressPairs s.1) →
      ChainIn 97 100 (progressPairs
        (@Prod.fst (List RunEvent) RunOutcome
          (match s with
          | (ev, .err m) => (ev ++ [.failMark m], .failed m)
          | (ev, .pauseAt t) => (ev, .paused t)
          | (ev, .go _) =>
              (ev ++ (tailLinks env keys gen cf).1, (tailLinks env keys gen cf).2)))) := by
    intro s hs
    rcases s with ⟨ev, fl⟩
    cases fl with
    | err m =>
        show ChainIn 97 100 (progressPairs (ev ++ [RunEvent.failMark m]))
        rw [progressPairs_append]
        simpa using hs.mono (le_refl 97) (by omega)
    | pauseAt t => exact hs.mono (le_refl 97) (by omega)
    | go l =>
        show ChainIn 97 100 (progressPairs (ev ++ (tailLinks env keys gen cf).1))
        rw [progressPairs_append]
        exact ChainIn.append hs (tailLinks_chain env keys gen cf) (by omega) (by omega)
  refine key _ ?_
  cases hsk : skipWriting cf
  · simpa [hsk] using stageWriting_chain env keys gen.config.continuousMode blocks
  · simp only [hsk, if_true]
    exact chainIn_nil _ _

lemma tailAnswers_chain (env : RunEnv) (keys : ApiKeysPresent) (gen : GenerationDoc)
    (cf : Option GenStatus) (blocks : List ArticleBlock) :
    ChainIn 90 100 (progressPairs (tailAnswers env keys gen cf blocks).1) := by
  unfold tailAnswers
  have key : ∀ (s : List RunEvent × Flow (List ArticleBlock)),
      ChainIn 90 96 (progressPairs s.1) →
      ChainIn 90 100 (progressPairs
        (@Prod.fst (List RunEvent) RunOutcome
          (match s with
          | (ev, .err m) => (ev ++ [.failMark m], .failed m)
          | (ev, .pauseAt t) => (ev, .paused t)
          | (ev, .go b) =>
              (ev ++ (tailWriting env keys gen cf b).1,
               (tailWriting env keys gen cf b).2)))) := by
    intro s hs
    rcases s with ⟨ev, fl⟩
    cases fl with
    | err m =>
        show ChainIn 90 100 (progressPairs (ev ++ [RunEvent.failMark m]))
        rw [progressPairs_append]
        simpa using hs.mono (le_refl 90) (by omega)
    | pauseAt t => exact hs.mono (le_refl 90) (by omega)
    | go b =>
        show ChainIn 90 100 (progressPairs (ev ++ (tailWriting env keys gen cf b).1))
        rw [progressPairs_append]
        exact ChainIn.append hs
          ((tailWriting_chain env keys gen cf b).mono (by omega) (le_refl 100))
          (by omega) (by omega)
  refine key _ ?_
  cases hsk : skipAnswers cf
  · simpa [hsk] using stageAnswers_chain env keys gen.config.continuousMode blocks
  · simp only [hsk, if_true]
    exact chainIn_nil _ _

lemma tailBlocks_chain (env : RunEnv) (keys : ApiKeysPresent) (gen : GenerationDoc)
    (cf : Option GenStatus) (blocks : List ArticleBlock) :
    ChainIn 75 100 (progressPairs (tailBlocks env keys gen cf blocks).1) := by
  unfold tailBlocks
  have key : ∀ (s : List RunEvent × Flow (List ArticleBlock)),
      ChainIn 75 88 (progressPairs s.1) →
      ChainIn 75 100 (progressPairs
        (@Prod.fst (List RunEvent) RunOutcome
          (match s with
          | (ev, .err m) => (ev ++ [.failMark m], .failed m)
          | (ev, .pauseAt t) => (ev, .paused t)
          | (ev, .go b) =>
              (ev ++ (tailAnswers env keys gen cf b).1,
               (tailAnswers env keys gen cf b).2)))) := by
    intro s hs
    rcases s with ⟨ev, fl⟩
    cases fl with
    | err m =>
        show ChainIn 75 100 (progressPairs (ev ++ [RunEvent.failMark m]))
        rw [progressPairs_append]
        simpa using hs.mono (le_refl 75) (by omega)
    | pauseAt t => exact hs.mono (le_refl 75) (by omega)
    | go b =>
        show ChainIn 75 100 (progressPairs (ev ++ (tailAnswers env keys gen cf b).1))
        rw [progressPairs_append]
        exact ChainIn.append hs
          ((tailAnswers_chain env keys gen cf b).mono (by omega) (le_refl 100))
          (by omega) (by omega)
  refine key _ ?_
  cases hsk : skipBlocks cf
  · simpa [hsk] using stageBlocks_chain env keys gen.config.continuousMode blocks
  · simp only [hsk, if_true]
    exact chainIn_nil _ _

lemma tailStructure_chain (env : RunEnv) (keys : ApiKeysPresent) (gen : GenerationDoc)
    (cf : Option GenStatus) :
    ChainIn 55 100 (progressPairs (tailStructure env keys gen cf).1) := by
  unfold tailStructure
  have key : ∀ (s : List RunEvent × Flow (List ArticleBlock)),
      ChainIn 55 70 (progressPairs s.1) →
      ChainIn 55 100 (progressPairs
        (@Prod.fst (List RunEvent) RunOutcome
          (match s with
          | (ev, .err m) => (ev ++ [.failMark m], .failed m)
          | (ev, .pauseAt t) => (ev, .paused t)
          | (ev, .go b) =>
              (ev ++ (tailBlocks env keys gen cf b).1,
               (tailBlocks env keys gen cf b).2)))) := by
    intro s hs
    rcases s with ⟨ev, fl⟩
    cases fl with
    | err m =>
        show ChainIn 55 100 (progressPairs (ev ++ [RunEvent.failMark m]))
        rw [progressPairs_append]
        simpa using hs.mono (le_refl 55) (by omega)
    | pauseAt t => exact hs.mono (le_refl 55) (by omega)
    | go b =>
        show ChainIn 55 100 (progressPairs (ev ++ (tailBlocks env keys gen cf b).1))
        rw [progressPairs_append]
        exact ChainIn.append hs
          ((tailBlocks_chain env keys gen cf b).mono (by omega) (le_refl 100))
          (by omega) (by omega)
  refine key _ ?_
  cases hsk : skipStructure cf
  · simpa [hsk] using stageStructure_chain env keys gen.config.continuousMode
  · simp only [hsk, if_true]
    exact chainIn_nil _ _

lemma processJob_chain (env : RunEnv) (keys : ApiKeysPresent) (gen : GenerationDoc)
    (cf : Option GenStatus) (hserp : ∀ rs, env.serp = .ok rs → rs.length ≤ 10) :
    ChainIn 5 100 (progressPairs (processJob env keys gen cf).1) := by
  unfold processJob
  have key : ∀ (s : List RunEvent × Flow Unit),
      ChainIn 5 50 (progressPairs s.1) →
      ChainIn 5 100 (progressPairs
        (@Prod.fst (List RunEvent) RunOutcome
          (match s with
          | (ev, .err m) => (ev ++ [.failMark m], .failed m)
          | (ev, .pauseAt t) => (ev, .paused t)
          | (ev, .go _) =>
              (ev ++ (tailStructure env keys gen cf).1,
               (tailStructure env keys gen cf).2)))) := by
    intro s hs
    rcases s with ⟨ev, fl⟩
    cases fl with
    | err m =>
        show ChainIn 5 100 (progressPairs (ev ++ [RunEvent.failMark m]))
        rw [progressPairs_append]
        simpa using hs.mono (le_refl 5) (by omega)
    | pauseAt t => exact hs.mono (le_refl 5) (by omega)
    | go u =>
        show ChainIn 5 100 (progressPairs (ev ++ (tailStructure env keys gen cf).1))
        rw [progressPairs_append]
        exact ChainIn.append hs
          ((tailStructure_chain env keys gen cf).mono (by omega) (le_refl 100))
          (by omega) (by omega)
  refine key _ ?_
  cases hsk : skipSerp cf
  · simpa [hsk] using stageSerp_chain env keys gen.config.continuousMode hserp
  · simp only [hsk, if_true]
    exact chainIn_nil _ _

end GenerationQueue

namespace GenerationQueue

/-- A non-continuous job with two article blocks and no internal links. -/
def demoGen2 : GenerationDoc :=
  ⟨⟨false, []⟩,
   [⟨0, .h1, "T", "", [], none, none, none⟩,
    ⟨1, .intro, "", "i", [], none, none, none⟩]⟩

/-- C1: the claim is false — within one invocation the persisted progress
values are not non-decreasing.  Resuming a two-block non-continuous job
from `paused_after_answers`, the writing loop persists 97 then 98, and the
stage-5 pause then persists `(paused_after_writing, 97)`, a drop from 98. -/
theorem progress_monotone_claim_false :
    progressValues (processJob demoEnv demoKeys demoGen2 (some .pausedAfterAnswers)).1 =
      [97, 97, 98, 97] ∧
    ¬ List.Chain' (· ≤ ·)
      (progressValues (processJob demoEnv demoKeys demoGen2 (some .pausedAfterAnswers)).1) := by
  constructor
  · rfl
  · intro hch
    rw [show progressValues
        (processJob demoEnv demoKeys demoGen2 (some .pausedAfterAnswers)).1 =
        [97, 97, 98, 97] from rfl] at hch
    rw [List.chain'_cons, List.chain'_cons, List.chain'_cons] at hch
    exact absurd hch.2.2.1 (by omega)

/-- C1 (amended): within one worker invocation (any job, any continueFrom,
with the SERP result list within the API's limit of 10 entries), every
pair of consecutive persisted progress writes is non-decreasing, with the
single exception of the stage-5 pause write `(paused_after_writing, 97)`,
whose predecessor never exceeds 99. -/
theorem progress_monotone_amended (env : RunEnv) (keys : ApiKeysPresent)
    (gen : GenerationDoc) (cf : Option GenStatus)
    (hserp : ∀ rs, env.serp = .ok rs → rs.length ≤ 10) :
    List.Chain' progLe (progressPairs (processJob env keys gen cf).1) :=
  (processJob_chain env keys gen cf hserp).1

/-- Concrete instance of the amended C1 statement, on the very trace that
refutes plain monotonicity. -/
theorem progress_monotone_amended_witness :
    List.Chain' progLe
      (progressPairs (processJob demoEnv demoKeys demoGen2 (some .pausedAfterAnswers)).1) :=
  progress_monotone_amended demoEnv demoKeys demoGen2 (some .pausedAfterAnswers)
    (fun rs h => by
      injection h with h2
      rw [← h2]
      decide)

end GenerationQueue
